import Mathlib

/-!
Verification of the key-rotation / JWT core of the Lyceum-Auth backend
(`app/application/services/key_creator_rotor.py`).

The development shallowly embeds the Python code: Python `str` values are
Lean `String`s, byte strings are `List Nat` (each element `< 256`),
dictionaries are association lists with Python's insertion-order/overwrite
semantics, and the process state touched by the manager (key directory,
environment) is passed explicitly as a `World` value.  Real time and RSA
key generation are passed in as explicit parameters.
-/

/-! ## Python string primitives -/

/-- Python truthiness of an `Optional[str]` (`None` and the empty string
are falsy). -/
def pyTruthy : Option String → Bool
  | none => false
  | some s => s ≠ ""

/-- The ASCII whitespace characters recognised by Python's `str.strip()`
and by the regex class `\s` (the model restricts itself to ASCII data). -/
def pyIsSpace (c : Char) : Bool :=
  c = ' ' || c = '\t' || c = '\n' || c = '\r' || c = '\x0b' || c = '\x0c'

/-- Python `str.strip()`: remove leading and trailing whitespace. -/
def pyStrip (s : String) : String :=
  String.mk (((s.data.dropWhile pyIsSpace).reverse.dropWhile pyIsSpace).reverse)

/-- Python `re.sub(r'\s+', '', s)`: drop every whitespace character. -/
def pyRemoveSpace (s : String) : String :=
  String.mk (s.data.filter (fun c => !pyIsSpace c))

/-- Python `str.lower()` (ASCII letters; the model's keys are ASCII). -/
def pyLower (s : String) : String := String.mk (s.data.map Char.toLower)

/-- Python `str.upper()` (ASCII letters). -/
def pyUpper (s : String) : String := String.mk (s.data.map Char.toUpper)

/-- Python `str.replace('-', '_')`. -/
def pyDashToUnderscore (s : String) : String :=
  String.mk (s.data.map (fun c => if c = '-' then '_' else c))

/-- Does `pat` occur as a contiguous sublist of `hay`? -/
def listHasInfix (hay pat : List Char) : Bool :=
  List.isPrefixOf pat hay ||
    match hay with
    | [] => false
    | _ :: t => listHasInfix t pat

/-- Python `sub in s` (substring containment test). -/
def pyContains (s sub : String) : Bool := listHasInfix s.data sub.data

/-- Python `s.startswith(p)`. -/
def pyStartsWith (s p : String) : Bool := List.isPrefixOf p.data s.data

/-- Python `s.endswith(p)`. -/
def pyEndsWith (s p : String) : Bool := List.isSuffixOf p.data s.data

/-! ## UTF-8 (model of Python `str.encode('utf-8')` / `bytes.decode('utf-8')`) -/

/-- UTF-8 encoding of a single code point. -/
def utf8EncodeNat (c : Nat) : List Nat :=
  if c < 0x80 then [c]
  else if c < 0x800 then [0xC0 + c / 64, 0x80 + c % 64]
  else if c < 0x10000 then [0xE0 + c / 4096, 0x80 + c / 64 % 64, 0x80 + c % 64]
  else [0xF0 + c / 262144, 0x80 + c / 4096 % 64, 0x80 + c / 64 % 64, 0x80 + c % 64]

/-- Python `s.encode('utf-8')`. -/
def utf8Encode (s : String) : List Nat :=
  (s.data.map (fun c => utf8EncodeNat c.toNat)).flatten

/-- Is `b` a UTF-8 continuation byte (`10xxxxxx`)? -/
def utf8IsCont (b : Nat) : Bool := 0x80 <= b && b < 0xC0

/-- Validate a decoded code point (reject overlong forms below `lo`,
surrogates and out-of-range values) and prepend it to the decoded
tail. -/
def utf8Val (lo n : Nat) (k : Option (List Char)) : Option (List Char) :=
  if n < lo then none
  else if 0xD800 <= n && n < 0xE000 then none
  else if 0x110000 <= n then none
  else k.map (fun cs => Char.ofNat n :: cs)

/-! UTF-8 decoding to code points; rejects stray/missing continuation
bytes, overlong forms, surrogates and out-of-range values, like Python's
`bytes.decode('utf-8')`.  Split by sequence length to keep the
recursion structural. -/
mutual

/-- Decode a UTF-8 byte stream to code points. -/
def utf8DecodeChars : List Nat → Option (List Char)
  | [] => some []
  | b :: bs =>
    if b < 0x80 then (utf8DecodeChars bs).map (fun cs => Char.ofNat b :: cs)
    else if b < 0xC0 then none
    else if b < 0xE0 then utf8Dec2 b bs
    else if b < 0xF0 then utf8Dec3 b bs
    else if b < 0xF8 then utf8Dec4 b bs
    else none

def utf8Dec2 : Nat → List Nat → Option (List Char)
  | b, b2 :: rest =>
    if utf8IsCont b2 then
      utf8Val 0x80 ((b - 0xC0) * 64 + (b2 - 0x80)) (utf8DecodeChars rest)
    else none
  | _, [] => none

def utf8Dec3 : Nat → List Nat → Option (List Char)
  | b, b2 :: b3 :: rest =>
    if utf8IsCont b2 && utf8IsCont b3 then
      utf8Val 0x800 ((b - 0xE0) * 4096 + (b2 - 0x80) * 64 + (b3 - 0x80))
        (utf8DecodeChars rest)
    else none
  | _, _ => none

def utf8Dec4 : Nat → List Nat → Option (List Char)
  | b, b2 :: b3 :: b4 :: rest =>
    if (utf8IsCont b2 && utf8IsCont b3) && utf8IsCont b4 then
      utf8Val 0x10000 ((b - 0xF0) * 262144 + (b2 - 0x80) * 4096 +
        (b3 - 0x80) * 64 + (b4 - 0x80)) (utf8DecodeChars rest)
    else none
  | _, _ => none

end

/-- Python `bytes.decode('utf-8')` producing a string. -/
def utf8Decode (bs : List Nat) : Option String :=
  (utf8DecodeChars bs).map String.mk

/-! ## Base64 (model of CPython `base64.b64encode` / `b64decode`) -/

/-- The standard Base64 alphabet, in value order. -/
def b64AlphaChars : List Char :=
  "ABCDEFGHIJKLMNOPQRSTUVWXYZabcdefghijklmnopqrstuvwxyz0123456789+/".data

/-- Byte values of the Base64 alphabet. -/
def b64ByteList : List Nat := b64AlphaChars.map Char.toNat

/-- The byte encoding a 6-bit value. -/
def b64ByteVal (v : Nat) : Nat := b64ByteList.getD v 65

/-- The 6-bit value of an alphabet byte, `none` for non-alphabet bytes. -/
def b64ValByte (b : Nat) : Option Nat := b64ByteList.indexOf? b

/-- `base64.b64encode` on bytes, producing the Base64 bytes (with `=`
padding, byte 61). -/
def b64EncodeBytes : List Nat → List Nat
  | [] => []
  | [a] => [b64ByteVal (a / 4), b64ByteVal (a % 4 * 16), 61, 61]
  | [a, b] => [b64ByteVal (a / 4), b64ByteVal (a % 4 * 16 + b / 16),
      b64ByteVal (b % 16 * 4), 61]
  | a :: b :: c :: rest =>
    b64ByteVal (a / 4) :: b64ByteVal (a % 4 * 16 + b / 16) ::
      b64ByteVal (b % 16 * 4 + c / 64) :: b64ByteVal (c % 64) ::
      b64EncodeBytes rest

/-- Bytes produced by a final (possibly partial) Base64 quad: two data
characters give one byte, three give two. -/
def b64EmitFinal : List Nat → List Nat
  | [v1, v2] => [v1 * 4 + v2 / 16]
  | [v1, v2, v3] => [v1 * 4 + v2 / 16, v2 % 16 * 16 + v3 / 4]
  | _ => []

/-- Bytes produced by a full Base64 quad. -/
def b64Emit4 (v1 v2 v3 v4 : Nat) : List Nat :=
  [v1 * 4 + v2 / 16, v2 % 16 * 16 + v3 / 4, v3 % 4 * 64 + v4]

/-- CPython `binascii.a2b_base64` in non-strict mode (as invoked by
`base64.b64decode(..., validate=False)`), modelled after its observable
behaviour: non-alphabet bytes are skipped; a `=` is ignored while the
current quad holds fewer than two data characters; once a quad holds two
or three data characters, enough consecutive-modulo-junk `=` bytes to
complete the quad end the decode (emitting the final partial bytes) and
any remaining input is ignored; at end of input a quad of one data
character is an error (`number of data characters` error) as is a
dangling quad of two or three (`Incorrect padding`).  The `quad` argument
holds the 6-bit values of the current quad, `pads` the padding count not
yet reset by a data character. -/
def a2bBase64Go : List Nat → List Nat → Nat → Option (List Nat)
  | [], quad, _ => if quad.length = 0 then some [] else none
  | b :: rest, quad, pads =>
    if b = 61 then
      if 2 ≤ quad.length && 4 ≤ quad.length + pads + 1 then
        some (b64EmitFinal quad)
      else a2bBase64Go rest quad (pads + 1)
    else
      match b64ValByte b with
      | none => a2bBase64Go rest quad pads
      | some v =>
        match quad with
        | [v1, v2, v3] => (a2bBase64Go rest [] 0).map (fun out => b64Emit4 v1 v2 v3 v ++ out)
        | _ => a2bBase64Go rest (quad ++ [v]) 0

/-- `base64.b64decode(bs)` (non-strict) on bytes. -/
def pyB64DecodeLoose (bs : List Nat) : Option (List Nat) := a2bBase64Go bs [] 0

/-- The regex `[A-Za-z0-9+/]*={0,2}` that `base64.b64decode(...,
validate=True)` matches against the whole input before decoding. -/
def b64ValidateShape (bs : List Nat) : Bool :=
  let data := bs.takeWhile (fun b => (b64ValByte b).isSome)
  let rest := bs.drop data.length
  decide (rest.length ≤ 2) && rest.all (fun b => b = 61)

/-- `base64.b64decode(s, validate=True)` on a `str` argument: the string
is first ASCII-encoded (failure for non-ASCII), the validation regex must
match the whole input, then the usual decoder runs. -/
def pyB64DecodeValidate (s : String) : Option (List Nat) :=
  if s.data.any (fun c => 128 ≤ c.toNat) then none
  else
    let bs := s.data.map Char.toNat
    if b64ValidateShape bs then a2bBase64Go bs [] 0 else none

/-! ## Association lists with Python `dict` semantics

Python dictionaries preserve insertion order; assigning to an existing
key overwrites its value in place, assigning to a fresh key appends. -/

/-- `d[k]` lookup (first binding, and bindings are unique in states the
code builds). -/
def alGet {α : Type} : List (String × α) → String → Option α
  | [], _ => none
  | (k, v) :: rest, key => if k = key then some v else alGet rest key

/-- `d[k] = v`: overwrite in place or append. -/
def alSet {α : Type} : List (String × α) → String → α → List (String × α)
  | [], key, v => [(key, v)]
  | (k, w) :: rest, key, v =>
    if k = key then (k, v) :: rest else (k, w) :: alSet rest key v

/-! ## The key-rotation data model (`key_creator_rotor.py`) -/

/-- One entry of `KeyRotationManager._keys` (the Python dict
`{"public": ..., "private": ..., "created_at": ..., "source": ...}`).
`created_at` is a timestamp modelled as an integer. -/
structure KeyData where
  publicPem : String
  privatePem : Option String
  created_at : Int
  source : String
deriving Repr, DecidableEq

/-- One file of the key directory, with its creation time
(`os.path.getctime`). -/
structure FsFile where
  name : String
  content : String
  ctime : Int
deriving Repr, DecidableEq

/-- The external state the manager touches: the key directory (a flat
list of files, in `os.listdir` order) and the process environment
(`os.environ`, in iteration order with distinct names). -/
structure World where
  fs : List FsFile
  env : List (String × String)
deriving Repr, DecidableEq

/-- The mutable state of a `KeyRotationManager` instance.  `env_pfx`
models the `env_prefix` constructor argument. -/
structure KeyRotationManager where
  keys_dir : String
  storage_backend : String
  env_pfx : String
  keys : List (String × KeyData)
  active_kid : Option String
deriving Repr, DecidableEq

/-- Python exceptions raised by the manager. -/
inductive PyErr
  | valueError (msg : String)
  | keyError (key : String)
  | runtimeError (msg : String)
deriving Repr, DecidableEq

/-- View of an `Except` as a sum, for deciding equalities. -/
def exceptToSum {ε α : Type} : Except ε α → ε ⊕ α
  | .error e => .inl e
  | .ok a => .inr a

instance {ε α : Type} [DecidableEq ε] [DecidableEq α] :
    DecidableEq (Except ε α) := fun a b =>
  decidable_of_iff (exceptToSum a = exceptToSum b)
    (by cases a <;> cases b <;> simp [exceptToSum])

/-- Filesystem helpers over the flat directory listing. -/
def fsRead (fs : List FsFile) (name : String) : Option String :=
  (fs.find? (fun f => f.name = name)).map (fun f => f.content)

/-- `os.remove` (restricted to the key directory). -/
def fsRemove (fs : List FsFile) (name : String) : List FsFile :=
  fs.filter (fun f => f.name ≠ name)

/-- `open(name, "w").write(content)`: overwrite in place or create. -/
def fsWrite (fs : List FsFile) (name content : String) (ctime : Int) : List FsFile :=
  if (fs.find? (fun f => f.name = name)).isSome then
    fs.map (fun f => if f.name = name then { f with content := content } else f)
  else fs ++ [⟨name, content, ctime⟩]

namespace KeyRotationManager

/-- `_encode_pem`: Base64 of the UTF-8 bytes of a PEM string. -/
def encode_pem (pem : String) : String :=
  String.mk ((b64EncodeBytes (utf8Encode pem)).map Char.ofNat)

/-- `_decode_pem`: Base64-decode then UTF-8-decode; `none` models the
exception path. -/
def decode_pem (b64 : String) : Option String :=
  (pyB64DecodeLoose (utf8Encode b64)).bind utf8Decode

/-- `_is_base64`: false for strings shorter than 10 characters, else
whether the whitespace-stripped string survives
`base64.b64decode(..., validate=True)`. -/
def is_base64 (s : String) : Bool :=
  if s.data.length < 10 then false
  else (pyB64DecodeValidate (pyRemoveSpace s)).isSome

/-- The suffix component of the variable-name regex
`^PREFIX_(?P<kid>.+?)_(?P<type>PRIVATE|PUBLIC)(_B64)?$`: the lowered
`type` group if the given characters are exactly one of the four
admissible tails. -/
def envSuffixType (l : List Char) : Option String :=
  if l = "_PRIVATE".data || l = "_PRIVATE_B64".data then some "private"
  else if l = "_PUBLIC".data || l = "_PUBLIC_B64".data then some "public"
  else none

/-- The non-greedy `(?P<kid>.+?)` scan: grow the kid one character at a
time (never across a newline, which `.` does not match) and stop at the
first position whose remainder is an admissible tail. -/
def scanKidVar (acc : List Char) : List Char → Option (String × String)
  | [] => none
  | c :: rest =>
    if c = '\n' then none
    else
      match envSuffixType rest with
      | some ty => some (String.mk (acc ++ [c]), ty)
      | none => scanKidVar (acc ++ [c]) rest

/-- Match a variable name against the regex above (anchored after
`PREFIX_`), returning the raw kid group and the lowered type group. -/
def matchEnvVarName (pfx name : String) : Option (String × String) :=
  let p := pfx.data ++ ['_']
  if List.isPrefixOf p name.data then scanKidVar [] (name.data.drop p.length)
  else none

/-- The value stored for one matching environment variable:
`is_b64 = '_B64' in var_name or _is_base64(var_value)`; when flagged the
stripped value is Base64-decoded with fallback to the raw value on
failure. -/
def envDecodedValue (name value : String) : String :=
  let isB64 := pyContains name "_B64" || is_base64 value
  if isB64 then
    match decode_pem (pyStrip value) with
    | some s => s
    | none => value
  else value

/-- One step of the `kids_data` grouping loop of `_load_keys_from_env`. -/
def envGroupStep (pfx : String) (acc : List (String × List (String × String)))
    (nv : String × String) : List (String × List (String × String)) :=
  if pyStartsWith nv.1 pfx then
    match matchEnvVarName pfx nv.1 with
    | none => acc
    | some (kidRaw, ty) =>
      let kid := pyLower kidRaw
      alSet acc kid (alSet ((alGet acc kid).getD []) ty (envDecodedValue nv.1 nv.2))
  else acc

/-- `_load_keys_from_env`. `utc i` is the value of `datetime.utcnow()`
observed when the `i`-th record is formed. -/
def load_keys_from_env (pfx : String) (env : List (String × String))
    (utc : Nat → Int) : List (String × KeyData) :=
  let groups := env.foldl (envGroupStep pfx) []
  groups.foldl
    (fun ks g =>
      match alGet g.2 "public" with
      | none => ks
      | some pub =>
        ks ++ [(g.1, ⟨pub, alGet g.2 "private", utc ks.length, "environment"⟩)])
    []

/-- `filename.replace("_public.pem", "")` (Python replaces every
occurrence, scanning left to right). -/
def stripPubPem : List Char → List Char
  | '_' :: 'p' :: 'u' :: 'b' :: 'l' :: 'i' :: 'c' :: '.' :: 'p' :: 'e' :: 'm' :: rest =>
    stripPubPem rest
  | c :: rest => c :: stripPubPem rest
  | [] => []

/-- `_load_keys_from_filesystem`: one record per `*_public.pem` file,
private file optional, `created_at` the public file's ctime. -/
def load_keys_from_filesystem (fs : List FsFile) : List (String × KeyData) :=
  fs.foldl
    (fun ks f =>
      if pyEndsWith f.name "_public.pem" then
        let kid := String.mk (stripPubPem f.name.data)
        alSet ks kid ⟨f.content, fsRead fs (kid ++ "_private.pem"), f.ctime, "filesystem"⟩
      else ks)
    []

/-- `datetime.min` as a timestamp (the `created_at` default that can
never fire, every record carrying a `created_at`). -/
def pyDatetimeMin : Int := -62135596800

/-- Python `max(ks, key=f)`: the first element attaining the maximum. -/
def maxByFirst (f : String → Int) (best : String) : List String → String
  | [] => best
  | k :: ks => if f k > f best then maxByFirst f k ks else maxByFirst f best ks

/-- The active-kid selection at the end of `load_keys`: the `max` (by
`created_at`, first on ties) of the kids whose records carry truthy
private material; when that list is empty the assignment is skipped and
the previous `_active_kid` value survives. -/
def select_active_kid (ks : List (String × KeyData)) (active0 : Option String) :
    Option String :=
  let active_keys := (ks.filter (fun kd => pyTruthy kd.2.privatePem)).map Prod.fst
  let created := fun k => ((alGet ks k).map (·.created_at)).getD pyDatetimeMin
  match active_keys with
  | [] => active0
  | k0 :: krest => some (maxByFirst created k0 krest)

/-- `load_keys`: clear and reload from the configured backend, then
select the active kid among records with truthy private material; when
no such record exists `_active_kid` is left untouched. -/
def load_keys (w : World) (utc : Nat → Int) (m : KeyRotationManager) :
    KeyRotationManager :=
  let ks := if m.storage_backend = "environment"
    then load_keys_from_env m.env_pfx w.env utc
    else load_keys_from_filesystem w.fs
  { m with keys := ks, active_kid := select_active_kid ks m.active_kid }

/-- `__init__`: fresh state then `load_keys` (directory creation has no
observable effect in the flat model). -/
def init (keys_dir storage_backend env_pfx : String) (w : World)
    (utc : Nat → Int) : KeyRotationManager :=
  load_keys w utc
    { keys_dir := keys_dir, storage_backend := storage_backend,
      env_pfx := env_pfx, keys := [], active_kid := none }

end KeyRotationManager

namespace KeyRotationManager

/-- `_save_keys_to_file`: write `{kid}_private.pem` then
`{kid}_public.pem` (ctimes supplied by the caller's clock). -/
def save_keys_to_file (w : World) (kid privPem pubPem : String)
    (tPriv tPub : Int) : World :=
  { w with
    fs := fsWrite (fsWrite w.fs (kid ++ "_private.pem") privPem tPriv)
            (kid ++ "_public.pem") pubPem tPub }

/-- `generate_key_pair`: the RSA generator's fresh pair is passed in as
`pair`; with the filesystem backend both files are written, with any
other backend nothing is persisted. -/
def generate_key_pair (w : World) (m : KeyRotationManager) (kid : String)
    (pair : String × String) (tPriv tPub : Int) : World × (String × String) :=
  if m.storage_backend = "filesystem" then
    (save_keys_to_file w kid pair.1 pair.2 tPriv tPub, pair)
  else (w, pair)

/-- `rotate_keys`: synthesize a kid when none (or a falsy one) is given
(`tsKid` stands for the `key-{timestamp}` string), generate, print
instructions in environment mode (no state effect), reload.  Returns the
new state and the resulting kid. -/
def rotate_keys (w : World) (utc : Nat → Int) (m : KeyRotationManager)
    (newKid : Option String) (tsKid : String) (pair : String × String)
    (tPriv tPub : Int) : World × KeyRotationManager × String :=
  let kid := match newKid with
    | none => tsKid
    | some k => if k = "" then tsKid else k
  let (w', _) := generate_key_pair w m kid pair tPriv tPub
  (w', load_keys w' utc m, kid)

/-- `retire_key`: unknown kid fails with `ValueError` before any
mutation; otherwise the private file is deleted (filesystem backend
only), the in-memory record loses its private material, and the set is
reloaded. -/
def retire_key (w : World) (utc : Nat → Int) (m : KeyRotationManager)
    (kid : String) : Except PyErr (World × KeyRotationManager) :=
  match alGet m.keys kid with
  | none => .error (.valueError kid)
  | some d =>
    let w' := if m.storage_backend = "filesystem"
      then { w with fs := fsRemove w.fs (kid ++ "_private.pem") }
      else w
    let m' := { m with keys := alSet m.keys kid { d with privatePem := none } }
    .ok (w', load_keys w' utc m')

/-- `get_active_key`: `RuntimeError` when `_active_kid` is falsy (absent
or the empty string) or when the named record's private material is not
truthy; `KeyError` when the stale active kid is no longer a key of
`_keys`. -/
def get_active_key (m : KeyRotationManager) :
    Except PyErr (String × String × String) :=
  match m.active_kid with
  | none => .error (.runtimeError "no active key")
  | some kid =>
    if kid = "" then .error (.runtimeError "no active key")
    else
      match alGet m.keys kid with
      | none => .error (.keyError kid)
      | some d =>
        match d.privatePem with
        | none => .error (.runtimeError "private key unavailable")
        | some p =>
          if p = "" then .error (.runtimeError "private key unavailable")
          else .ok (kid, p, d.publicPem)

/-- `get_public_keys`: all public PEMs, keyed by kid, in insertion
order. -/
def get_public_keys (m : KeyRotationManager) : List (String × String) :=
  m.keys.map (fun kd => (kd.1, kd.2.publicPem))

/-- `export_to_env`: Base64 the PEMs of the selected records under
`{PREFIX}_{KID}_{PRIVATE|PUBLIC}_B64` names, the kid uppercased with
`-` mapped to `_`; the private entry only for truthy private material.
A falsy `kid` argument selects every record.  The loop body is split
out as `exportStep` for the export-shape lemmas. -/
def exportStep (pfx : String) (tbl : List (String × KeyData))
    (res : List (String × String)) (k : String) : List (String × String) :=
  match alGet tbl k with
  | none => res
  | some d =>
    let kidUpper := pyDashToUnderscore (pyUpper k)
    let res1 := match d.privatePem with
      | some p =>
        if p ≠ "" then
          alSet res (pfx ++ "_" ++ kidUpper ++ "_PRIVATE_B64") (encode_pem p)
        else res
      | none => res
    alSet res1 (pfx ++ "_" ++ kidUpper ++ "_PUBLIC_B64") (encode_pem d.publicPem)

def export_to_env (m : KeyRotationManager) (kidOpt : Option String) :
    List (String × String) :=
  let kids := match kidOpt with
    | none => m.keys.map Prod.fst
    | some k => if k = "" then m.keys.map Prod.fst else [k]
  kids.foldl (exportStep m.env_pfx m.keys) []

end KeyRotationManager

/-! ## JWKS -/

/-- `int.to_bytes((bit_length + 7) // 8, 'big')`: minimal big-endian
byte string, empty for zero. -/
def natToBytesBE (n : Nat) : List Nat :=
  if h : n = 0 then [] else natToBytesBE (n / 256) ++ [n % 256]
decreasing_by exact Nat.div_lt_self (Nat.pos_of_ne_zero h) (by norm_num)

/-- `base64.urlsafe_b64encode(...).rstrip(b'=')`: standard Base64 with
`+` and `/` replaced by `-` and `_`, padding stripped. -/
def b64UrlNoPad (bs : List Nat) : String :=
  let enc := ((b64EncodeBytes bs).reverse.dropWhile (fun b => b = 61)).reverse
  String.mk (enc.map (fun b =>
    if b = 43 then '-' else if b = 47 then '_' else Char.ofNat b))

/-- One JWKS entry. -/
structure Jwk where
  kty : String
  kid : String
  use : String
  alg : String
  n : String
  e : String
deriving Repr, DecidableEq

/-- The JWKS entry emitted for a record, given the RSA public numbers of
its public PEM. -/
def jwkOfNumbers (kid : String) (numbers : Nat × Nat) : Jwk :=
  { kty := "RSA", kid := kid, use := "sig", alg := "RS256",
    n := b64UrlNoPad (natToBytesBE numbers.1),
    e := b64UrlNoPad (natToBytesBE numbers.2) }

namespace KeyRotationManager

/-- `get_jwks`: one entry per record in insertion order;
`serialization.load_pem_public_key` is modelled by the `parse` argument,
whose failure (unparsable PEM) propagates as an exception. -/
def get_jwks (parse : String → Option (Nat × Nat)) (m : KeyRotationManager) :
    Except PyErr (List Jwk) :=
  m.keys.foldlM
    (fun acc kd =>
      match parse kd.2.publicPem with
      | none => .error (.valueError "could not deserialize public key")
      | some nums => .ok (acc ++ [jwkOfNumbers kd.1 nums]))
    []

end KeyRotationManager

/-! ## Token codec (`RotationJWT`)

Tokens and the `python-jose` calls (`jwt.encode`, `jwt.get_unverified_header`,
`jwt.decode`) are modelled at the library's interface: a compact token is
either structurally invalid or a signed structure carrying its header, its
payload, and the private PEM that signed it; an RS256 signature checks out
against a public PEM exactly when that PEM is the signing key's public
counterpart, which the explicit `pairOf` argument (the RSA
private-to-public correspondence) decides.  `jwt.decode` merges the
options the code passes (`verify_exp`, `verify_nbf`, `verify_iat`) into
its defaults, which leave `verify_aud`, `verify_iss`, `verify_sub`,
`verify_jti` and `verify_at_hash` enabled with `audience`, `issuer`,
`subject` and `access_token` all `None`: signature first, then `iat`
(integer parse only), then `nbf` (fails iff `nbf > now`), then `exp`
(fails iff `exp < now`), no leeway; then `aud` (with no expected
audience, any `aud` claim fails — `Invalid audience` for a string,
`Invalid claim format in token` otherwise), `iss` (a no-op with
`issuer=None`), `sub` and `jti` (must be strings when present), and
`at_hash` (fails when present, as no access token is supplied).  Claim
values are integers, strings or booleans; the `int` coercion of a
numeric string is not modelled (this codec only ever places integers in
the checked claims). -/

/-- A JSON claim value. -/
inductive CVal
  | int (n : Int)
  | str (s : String)
  | boolv (b : Bool)
deriving Repr, DecidableEq

/-- A claims mapping (a Python dict). -/
abbrev Claims := List (String × CVal)

/-- Python `d.update(u)`: assign the pairs of `u` into `d` in order. -/
def pyDictUpdate {α : Type} (d : List (String × α)) (u : List (String × α)) :
    List (String × α) :=
  u.foldl (fun acc kv => alSet acc kv.1 kv.2) d

/-- The decoded content of a well-formed compact token. -/
structure TokenData where
  headerKid : Option String
  headerAlg : String
  headerTyp : String
  payload : Claims
  sigPriv : String
deriving Repr, DecidableEq

/-- A compact token: structurally invalid, or signed data. -/
inductive Token
  | malformed (raw : String)
  | signed (d : TokenData)
deriving Repr, DecidableEq

/-- The failure taxonomy of `verify_token` (every constructor is a
`JWTError` raised to the caller; nothing is swallowed). -/
inductive VerifyError
  | malformed
  | missingKid
  | unknownKid (kid : String)
  | algNotAllowed
  | badSignature
  | claimsTypeError (claim : String)
  | expired
  | notYetValid
  | invalidAudience
  | invalidClaimFormat (claim : String)
  | claimNotString (claim : String)
  | atHashWithoutToken
deriving Repr, DecidableEq

/-- jose's claim extraction with `int` coercion: `some none` when the
claim is absent (no check performed), `some (some n)` for an integer,
`none` for a value the coercion rejects (`JWTClaimsError`). -/
def joseIntClaim (p : Claims) (name : String) : Option (Option Int) :=
  match alGet p name with
  | none => some none
  | some (.int n) => some (some n)
  | some _ => none

/-- `_validate_sub` / `_validate_jti` with `subject=None`: the claim may
be absent, and when present must be a string. -/
def joseClaimStrOk : Option CVal → Bool
  | none => true
  | some (.str _) => true
  | some _ => false

/-- The tail of jose's `_validate_claims` that runs after the
`iat`/`nbf`/`exp` checks, with the decoder's default-merged options and
`audience = issuer = subject = access_token = None`: any `aud` claim
fails (`Invalid audience` for a string, `Invalid claim format in token`
otherwise); `iss` is never checked with no expected issuer; `sub` and
`jti` must be strings when present; any `at_hash` claim fails for lack
of an access token.  `none` means every check passed. -/
def joseExtraClaimChecks (p : Claims) : Option VerifyError :=
  match alGet p "aud" with
  | some (.str _) => some .invalidAudience
  | some _ => some (.invalidClaimFormat "aud")
  | none =>
    if joseClaimStrOk (alGet p "sub") then
      if joseClaimStrOk (alGet p "jti") then
        match alGet p "at_hash" with
        | some _ => some .atHashWithoutToken
        | none => none
      else some (.claimNotString "jti")
    else some (.claimNotString "sub")

/-- The dict `{"iat": now, "exp": now + expires_in, "nbf": now}` that
`create_token` merges into the payload (all integer seconds since the
epoch). -/
def tokenTimeClaims (now expires_in : Int) : Claims :=
  [("iat", .int now), ("exp", .int (now + expires_in)), ("nbf", .int now)]

namespace RotationJWT

/-- `create_token`: fetch the active key (propagating its failures), add
`iat = now`, `exp = now + expires_in`, `nbf = now` to the caller's
payload dict (in place — the second component of the result is the
caller's dict after the call), and sign with header
`{kid, alg, typ: "JWT"}`.  `alg` is the codec's `algorithm` attribute
(`"RS256"` by default and in the repository's configuration). -/
def create_token (m : KeyRotationManager) (alg : String) (payload : Claims)
    (expires_in : Int) (now : Int) : Except PyErr (Token × Claims) :=
  match KeyRotationManager.get_active_key m with
  | .error e => .error e
  | .ok (kid, priv, _) =>
    let payload' := pyDictUpdate payload (tokenTimeClaims now expires_in)
    .ok (.signed
      { headerKid := some kid, headerAlg := alg, headerTyp := "JWT",
        payload := payload', sigPriv := priv }, payload')

/-- `verify_token`: header parsed without signature verification
(`Malformed` on structurally invalid input); a falsy `kid` (absent or
empty) fails with the missing-kid error; a kid outside
`get_public_keys()` fails with the unknown-kid error; then `jwt.decode`
verifies the algorithm, the signature against the selected public PEM,
the `iat`/`nbf`/`exp` claims against `now`, and finally the
default-enabled `aud`/`sub`/`jti`/`at_hash` claim checks
(`joseExtraClaimChecks`). -/
def verify_token (pairOf : String → String) (m : KeyRotationManager)
    (alg : String) (tok : Token) (now : Int) : Except VerifyError Claims :=
  match tok with
  | .malformed _ => .error .malformed
  | .signed d =>
    match d.headerKid with
    | none => .error .missingKid
    | some kid =>
      if kid = "" then .error .missingKid
      else
        match alGet (KeyRotationManager.get_public_keys m) kid with
        | none => .error (.unknownKid kid)
        | some pub =>
          if d.headerAlg ≠ alg then .error .algNotAllowed
          else if pairOf d.sigPriv ≠ pub then .error .badSignature
          else
            match joseIntClaim d.payload "iat" with
            | none => .error (.claimsTypeError "iat")
            | some _ =>
              match joseIntClaim d.payload "nbf" with
              | none => .error (.claimsTypeError "nbf")
              | some onbf =>
                if (match onbf with | some b => decide (now < b) | none => false) then
                  .error .notYetValid
                else
                  match joseIntClaim d.payload "exp" with
                  | none => .error (.claimsTypeError "exp")
                  | some oexp =>
                    if (match oexp with | some x => decide (x < now) | none => false) then
                      .error .expired
                    else
                      match joseExtraClaimChecks d.payload with
                      | some e => .error e
                      | none => .ok d.payload

end RotationJWT

/-! ## Helper lemmas on dictionaries and selection -/

theorem alGet_alSet_self {α : Type} (d : List (String × α)) (k : String) (v : α) :
    alGet (alSet d k v) k = some v := by
  induction d with
  | nil => simp [alSet, alGet]
  | cons hd tl ih =>
    by_cases h : hd.1 = k
    · simp [alSet, alGet, h]
    · simp only [alSet, h, if_false]
      cases hd with
      | mk k' v' => simp only [alSet] at *; simp [alGet, h, ih]

theorem alGet_alSet_ne {α : Type} (d : List (String × α)) (k k' : String) (v : α)
    (h : k ≠ k') : alGet (alSet d k v) k' = alGet d k' := by
  induction d with
  | nil => simp [alSet, alGet, h]
  | cons hd tl ih =>
    cases hd with
    | mk k0 v0 =>
      by_cases h0 : k0 = k
      · simp [alSet, alGet, h0, h]
      · simp [alSet, alGet, h0, ih]

theorem alGet_map_snd {α β : Type} (f : α → β) (l : List (String × α)) (k : String) :
    alGet (l.map (fun kd => (kd.1, f kd.2))) k = (alGet l k).map f := by
  induction l with
  | nil => simp [alGet]
  | cons hd tl ih =>
    by_cases h : hd.1 = k
    · simp [alGet, h]
    · simp [alGet, h, ih]

theorem maxByFirst_mem (f : String → Int) (b : String) (l : List String) :
    KeyRotationManager.maxByFirst f b l ∈ b :: l := by
  induction l generalizing b with
  | nil => simp [KeyRotationManager.maxByFirst]
  | cons k ks ih =>
    simp only [KeyRotationManager.maxByFirst]
    by_cases h : f k > f b
    · simp only [h, if_true]
      have := ih k
      simp only [List.mem_cons] at this ⊢
      tauto
    · simp only [h, if_false]
      have := ih b
      simp only [List.mem_cons] at this ⊢
      tauto

theorem alGet_time_update_iat (d : Claims) (now expires_in : Int) :
    alGet (pyDictUpdate d (tokenTimeClaims now expires_in)) "iat" =
      some (.int now) := by
  simp only [pyDictUpdate, tokenTimeClaims, List.foldl]
  rw [alGet_alSet_ne _ _ _ _ (by decide), alGet_alSet_ne _ _ _ _ (by decide),
    alGet_alSet_self]

theorem alGet_time_update_exp (d : Claims) (now expires_in : Int) :
    alGet (pyDictUpdate d (tokenTimeClaims now expires_in)) "exp" =
      some (.int (now + expires_in)) := by
  simp only [pyDictUpdate, tokenTimeClaims, List.foldl]
  rw [alGet_alSet_ne _ _ _ _ (by decide), alGet_alSet_self]

theorem alGet_time_update_nbf (d : Claims) (now expires_in : Int) :
    alGet (pyDictUpdate d (tokenTimeClaims now expires_in)) "nbf" =
      some (.int now) := by
  simp only [pyDictUpdate, tokenTimeClaims, List.foldl]
  rw [alGet_alSet_self]

theorem alGet_time_update_frame (d : Claims) (now expires_in : Int)
    (k : String) (h1 : k ≠ "iat") (h2 : k ≠ "exp") (h3 : k ≠ "nbf") :
    alGet (pyDictUpdate d (tokenTimeClaims now expires_in)) k = alGet d k := by
  simp only [pyDictUpdate, tokenTimeClaims, List.foldl]
  rw [alGet_alSet_ne _ _ _ _ (fun hh => h3 hh.symm),
    alGet_alSet_ne _ _ _ _ (fun hh => h2 hh.symm),
    alGet_alSet_ne _ _ _ _ (fun hh => h1 hh.symm)]

theorem select_active_kid_of_empty (ks : List (String × KeyData))
    (active0 : Option String)
    (h : ks.filter (fun kd => pyTruthy kd.2.privatePem) = []) :
    KeyRotationManager.select_active_kid ks active0 = active0 := by
  simp [KeyRotationManager.select_active_kid, h]

theorem select_active_kid_of_nonempty (ks : List (String × KeyData))
    (active0 : Option String)
    (h : ks.filter (fun kd => pyTruthy kd.2.privatePem) ≠ []) :
    ∃ x d, KeyRotationManager.select_active_kid ks active0 = some x ∧
      (x, d) ∈ ks ∧ pyTruthy d.privatePem = true := by
  simp only [KeyRotationManager.select_active_kid]
  cases hf : (ks.filter (fun kd => pyTruthy kd.2.privatePem)).map Prod.fst with
  | nil =>
    exact absurd (by simpa using hf) h
  | cons k0 krest =>
    have hmem : KeyRotationManager.maxByFirst
        (fun k => ((alGet ks k).map (·.created_at)).getD
          KeyRotationManager.pyDatetimeMin) k0 krest ∈ k0 :: krest :=
      maxByFirst_mem _ _ _
    rw [← hf] at hmem
    obtain ⟨kd, hkd, hfst⟩ := List.mem_map.mp hmem
    have := List.mem_filter.mp hkd
    refine ⟨_, kd.2, rfl, ?_, ?_⟩
    · rw [← hfst]
      exact this.1
    · simpa using this.2

theorem load_keys_keys_eq (w : World) (utc : Nat → Int)
    (m : KeyRotationManager) :
    (KeyRotationManager.load_keys w utc m).keys =
      (if m.storage_backend = "environment"
        then KeyRotationManager.load_keys_from_env m.env_pfx w.env utc
        else KeyRotationManager.load_keys_from_filesystem w.fs) := rfl

theorem load_keys_active_kid_eq (w : World) (utc : Nat → Int)
    (m : KeyRotationManager) :
    (KeyRotationManager.load_keys w utc m).active_kid =
      KeyRotationManager.select_active_kid
        (KeyRotationManager.load_keys w utc m).keys m.active_kid := rfl

/-- Claim C1 (amended): after any `load_keys` — the call every
construction, rotation and retirement ends with — if the freshly loaded
set contains at least one record with truthy private material then
`_active_kid` names such a record of the new set; but when the loaded
set contains none (including the empty set), `_active_kid` is left at
its previous value instead of being reset to `none`, so it may go on
naming a record whose private material is absent. -/
theorem C1_load_keys_active_kid (w : World) (utc : Nat → Int)
    (m : KeyRotationManager) :
    ((KeyRotationManager.load_keys w utc m).keys.filter
        (fun kd => pyTruthy kd.2.privatePem) ≠ [] →
      ∃ x d, (KeyRotationManager.load_keys w utc m).active_kid = some x ∧
        (x, d) ∈ (KeyRotationManager.load_keys w utc m).keys ∧
        pyTruthy d.privatePem = true) ∧
    ((KeyRotationManager.load_keys w utc m).keys.filter
        (fun kd => pyTruthy kd.2.privatePem) = [] →
      (KeyRotationManager.load_keys w utc m).active_kid = m.active_kid) := by
  constructor
  · intro h
    rw [load_keys_active_kid_eq]
    exact select_active_kid_of_nonempty _ _ h
  · intro h
    rw [load_keys_active_kid_eq]
    exact select_active_kid_of_empty _ _ h

/-- Claim C1, counterexample to the stated invariant: a filesystem
manager over a directory holding the single pair `k1`; after
`retire_key "k1"` the reload finds no private-bearing record, the stale
`_active_kid` still names `k1`, and `k1`'s record has absent private
material — `ActiveKid` is not reset to `none`. -/
theorem C1_counterexample :
    (KeyRotationManager.retire_key
        ⟨[⟨"k1_private.pem", "PRIVK", 5⟩, ⟨"k1_public.pem", "PUBK", 6⟩], []⟩
        (fun _ => 0)
        (KeyRotationManager.init "keys" "filesystem" "JWT_KEY"
          ⟨[⟨"k1_private.pem", "PRIVK", 5⟩, ⟨"k1_public.pem", "PUBK", 6⟩], []⟩
          (fun _ => 0))
        "k1").toOption.map
      (fun p => (p.2.active_kid, (alGet p.2.keys "k1").map KeyData.privatePem)) =
      some (some "k1", some none) := by decide

/-- Witness for `C1_load_keys_active_kid` at a concrete loaded set. -/
theorem C1_witness :
    ∃ x d,
      (KeyRotationManager.load_keys
        ⟨[⟨"k1_private.pem", "PRIVK", 5⟩, ⟨"k1_public.pem", "PUBK", 6⟩], []⟩
        (fun _ => 0)
        { keys_dir := "keys", storage_backend := "filesystem",
          env_pfx := "JWT_KEY", keys := [], active_kid := none }).active_kid =
          some x ∧
      (x, d) ∈ (KeyRotationManager.load_keys
        ⟨[⟨"k1_private.pem", "PRIVK", 5⟩, ⟨"k1_public.pem", "PUBK", 6⟩], []⟩
        (fun _ => 0)
        { keys_dir := "keys", storage_backend := "filesystem",
          env_pfx := "JWT_KEY", keys := [], active_kid := none }).keys ∧
      pyTruthy d.privatePem = true :=
  (C1_load_keys_active_kid
    ⟨[⟨"k1_private.pem", "PRIVK", 5⟩, ⟨"k1_public.pem", "PUBK", 6⟩], []⟩
    (fun _ => 0)
    { keys_dir := "keys", storage_backend := "filesystem",
      env_pfx := "JWT_KEY", keys := [], active_kid := none }).1 (by decide)

/-- Claim C9: `retire_key` on a kid that is not a key of `_keys` fails
with `ValueError` — the membership check precedes every mutation, so the
error branch returns no new state and the in-memory set, `_active_kid`
and the backend storage are untouched. -/
theorem C9_retire_unknown_key (w : World) (utc : Nat → Int)
    (m : KeyRotationManager) (kid : String) (h : alGet m.keys kid = none) :
    KeyRotationManager.retire_key w utc m kid = .error (.valueError kid) := by
  unfold KeyRotationManager.retire_key
  rw [h]

/-- Witness for `C9_retire_unknown_key`. -/
theorem C9_witness :
    KeyRotationManager.retire_key ⟨[], []⟩ (fun _ => 0)
      { keys_dir := "keys", storage_backend := "filesystem",
        env_pfx := "JWT_KEY", keys := [], active_kid := none } "nope" =
      .error (.valueError "nope") :=
  C9_retire_unknown_key _ _ _ _ (by decide)

/-- Claim C2, the environment-backend divergence: over the environment
`JWT_KEY_V1_PRIVATE_B64 / JWT_KEY_V1_PUBLIC_B64` (Base64 of `PRIV` /
`PUB`), `retire_key "v1"` drops the private material in memory but then
reloads from the unchanged environment, which restores it —
`get_active_key` afterwards returns the retired `v1` with its private
PEM, contradicting the retire contract. -/
theorem C2_env_retire_restores_private :
    (KeyRotationManager.retire_key
        ⟨[], [("JWT_KEY_V1_PRIVATE_B64", "UFJJVg=="),
              ("JWT_KEY_V1_PUBLIC_B64", "UFVC")]⟩
        (fun _ => 101)
        (KeyRotationManager.init "keys" "environment" "JWT_KEY"
          ⟨[], [("JWT_KEY_V1_PRIVATE_B64", "UFJJVg=="),
                ("JWT_KEY_V1_PUBLIC_B64", "UFVC")]⟩
          (fun _ => 100))
        "v1").toOption.map
      (fun p => (KeyRotationManager.get_active_key p.2).toOption) =
      some (some ("v1", "PRIV", "PUB")) := by decide

/-- Claim C8: with every public PEM parsable (`parse` total), `get_jwks`
returns exactly one `{kty, kid, use, alg, n, e}` entry per record of the
in-memory map, in insertion order, with `n`/`e` the minimal big-endian
bytes of the RSA numbers, Base64url without padding. -/
theorem C8_get_jwks_spec (f : String → Nat × Nat) (m : KeyRotationManager) :
    KeyRotationManager.get_jwks (fun s => some (f s)) m =
      .ok (m.keys.map (fun kd => jwkOfNumbers kd.1 (f kd.2.publicPem))) := by
  unfold KeyRotationManager.get_jwks
  suffices h : ∀ (l : List (String × KeyData)) (acc : List Jwk),
      (l.foldlM
        (fun acc kd =>
          match (fun s => some (f s)) kd.2.publicPem with
          | none => Except.error (PyErr.valueError "could not deserialize public key")
          | some nums => Except.ok (acc ++ [jwkOfNumbers kd.1 nums]))
        acc : Except PyErr (List Jwk)) =
        .ok (acc ++ l.map (fun kd => jwkOfNumbers kd.1 (f kd.2.publicPem))) by
    simpa using h m.keys []
  intro l
  induction l with
  | nil =>
    intro acc
    show (Except.ok acc : Except PyErr (List Jwk)) = _
    simp
  | cons hd tl ih =>
    intro acc
    show (tl.foldlM
        (fun acc kd =>
          match (fun s => some (f s)) kd.2.publicPem with
          | none => Except.error (PyErr.valueError "could not deserialize public key")
          | some nums => Except.ok (acc ++ [jwkOfNumbers kd.1 nums]))
        (acc ++ [jwkOfNumbers hd.1 (f hd.2.publicPem)]) : Except PyErr (List Jwk)) = _
    rw [ih]
    simp

theorem get_active_key_eval (m : KeyRotationManager) (kid p : String)
    (d : KeyData) (hk : m.active_kid = some kid) (hne : kid ≠ "")
    (hd : alGet m.keys kid = some d) (hp : d.privatePem = some p)
    (hpne : p ≠ "") :
    KeyRotationManager.get_active_key m = .ok (kid, p, d.publicPem) := by
  unfold KeyRotationManager.get_active_key
  simp [hk, hd, hp, hne, hpne]

theorem get_active_key_ok_active (m : KeyRotationManager) (kid p pub : String)
    (h : KeyRotationManager.get_active_key m = .ok (kid, p, pub)) :
    m.active_kid = some kid := by
  unfold KeyRotationManager.get_active_key at h
  split at h
  · exact absurd h (by simp)
  next k heq =>
    split at h
    · exact absurd h (by simp)
    · split at h
      · exact absurd h (by simp)
      next d heq2 =>
        split at h
        · exact absurd h (by simp)
        next p' heq3 =>
          split at h
          · exact absurd h (by simp)
          · simp only [Except.ok.injEq, Prod.mk.injEq] at h
            rw [heq, h.1]

/-- Claim C6: a successful `create_token` call signs with the header
`{kid: the active kid, alg: "RS256", typ: "JWT"}` and merges
`iat = now`, `nbf = now`, `exp = now + expires_in` (integer seconds)
into the claims, overwriting any caller-supplied values of those
names. -/
theorem C6_create_token_header_and_times (m : KeyRotationManager)
    (payload : Claims) (expires_in now : Int) (kid p pub : String)
    (h : KeyRotationManager.get_active_key m = .ok (kid, p, pub)) :
    RotationJWT.create_token m "RS256" payload expires_in now =
      .ok (.signed
        { headerKid := some kid, headerAlg := "RS256", headerTyp := "JWT",
          payload := pyDictUpdate payload (tokenTimeClaims now expires_in),
          sigPriv := p },
        pyDictUpdate payload (tokenTimeClaims now expires_in)) ∧
    m.active_kid = some kid ∧
    alGet (pyDictUpdate payload (tokenTimeClaims now expires_in)) "iat" =
      some (.int now) ∧
    alGet (pyDictUpdate payload (tokenTimeClaims now expires_in)) "nbf" =
      some (.int now) ∧
    alGet (pyDictUpdate payload (tokenTimeClaims now expires_in)) "exp" =
      some (.int (now + expires_in)) := by
  refine ⟨?_, get_active_key_ok_active m kid p pub h, alGet_time_update_iat _ _ _,
    alGet_time_update_nbf _ _ _, alGet_time_update_exp _ _ _⟩
  unfold RotationJWT.create_token
  rw [h]

/-- Witness for `C6_create_token_header_and_times`. -/
theorem C6_witness :
    RotationJWT.create_token
      { keys_dir := "keys", storage_backend := "filesystem",
        env_pfx := "JWT_KEY",
        keys := [("v1", ⟨"PUB", some "PRIV", 0, "filesystem"⟩)],
        active_kid := some "v1" } "RS256" [("sub", .str "u1")] 60 1000 =
      .ok (.signed
        { headerKid := some "v1", headerAlg := "RS256", headerTyp := "JWT",
          payload := pyDictUpdate [("sub", .str "u1")] (tokenTimeClaims 1000 60),
          sigPriv := "PRIV" },
        pyDictUpdate [("sub", .str "u1")] (tokenTimeClaims 1000 60)) :=
  (C6_create_token_header_and_times
    { keys_dir := "keys", storage_backend := "filesystem",
      env_pfx := "JWT_KEY",
      keys := [("v1", ⟨"PUB", some "PRIV", 0, "filesystem"⟩)],
      active_kid := some "v1" }
    [("sub", .str "u1")] 60 1000 "v1" "PRIV" "PUB" (by decide)).1

/-- Claim C10: `create_token` updates the caller's payload dict in place
(the model returns the caller's dict as the second component): after a
successful call it carries the added `iat`, `nbf`, `exp` entries, and
every other key of the caller's mapping is unchanged. -/
theorem C10_create_token_mutates_payload (m : KeyRotationManager)
    (alg : String) (payload : Claims) (expires_in now : Int)
    (akp : String × String × String)
    (h : KeyRotationManager.get_active_key m = .ok akp) :
    (∃ tok, RotationJWT.create_token m alg payload expires_in now =
      .ok (tok, pyDictUpdate payload (tokenTimeClaims now expires_in))) ∧
    alGet (pyDictUpdate payload (tokenTimeClaims now expires_in)) "iat" =
      some (.int now) ∧
    alGet (pyDictUpdate payload (tokenTimeClaims now expires_in)) "nbf" =
      some (.int now) ∧
    alGet (pyDictUpdate payload (tokenTimeClaims now expires_in)) "exp" =
      some (.int (now + expires_in)) ∧
    ∀ k, k ≠ "iat" → k ≠ "exp" → k ≠ "nbf" →
      alGet (pyDictUpdate payload (tokenTimeClaims now expires_in)) k =
        alGet payload k := by
  obtain ⟨kid, p, pub⟩ := akp
  refine ⟨⟨.signed
    { headerKid := some kid, headerAlg := alg, headerTyp := "JWT",
      payload := pyDictUpdate payload (tokenTimeClaims now expires_in),
      sigPriv := p }, ?_⟩, alGet_time_update_iat _ _ _,
    alGet_time_update_nbf _ _ _, alGet_time_update_exp _ _ _,
    fun k h1 h2 h3 => alGet_time_update_frame _ _ _ k h1 h2 h3⟩
  unfold RotationJWT.create_token
  rw [h]

/-- Witness for `C10_create_token_mutates_payload`. -/
theorem C10_witness :
    (∃ tok, RotationJWT.create_token
      { keys_dir := "keys", storage_backend := "filesystem",
        env_pfx := "JWT_KEY",
        keys := [("v1", ⟨"PUB", some "PRIV", 0, "filesystem"⟩)],
        active_kid := some "v1" } "RS256" [("sub", .str "u1")] 60 1000 =
      .ok (tok, pyDictUpdate [("sub", .str "u1")] (tokenTimeClaims 1000 60))) ∧
    alGet (pyDictUpdate [("sub", .str "u1")] (tokenTimeClaims 1000 60)) "iat" =
      some (.int 1000) ∧
    alGet (pyDictUpdate [("sub", .str "u1")] (tokenTimeClaims 1000 60)) "nbf" =
      some (.int 1000) ∧
    alGet (pyDictUpdate [("sub", .str "u1")] (tokenTimeClaims 1000 60)) "exp" =
      some (.int (1000 + 60)) ∧
    ∀ k, k ≠ "iat" → k ≠ "exp" → k ≠ "nbf" →
      alGet (pyDictUpdate [("sub", .str "u1")] (tokenTimeClaims 1000 60)) k =
        alGet [("sub", CVal.str "u1")] k :=
  C10_create_token_mutates_payload _ "RS256" _ 60 1000 ("v1", "PRIV", "PUB")
    (by decide)

/-- Claim C4 (amended): for every key pair installed as the active key
whose kid is non-empty (`pairOf` relating the private PEM to its public
counterpart), every claims mapping that survives the decoder's
default-enabled claim validation — no `aud` and no `at_hash` claim, and
`sub`/`jti` strings when present — and every window
`now ≤ now' ≤ now + ttl` (non-degenerate whenever `ttl > 0`),
`create_token` succeeds and `verify_token` of the produced token at
`now'` returns the input claims updated with `iat`, `exp` and `nbf`. -/
theorem C4_issue_verify_roundtrip (pairOf : String → String)
    (m : KeyRotationManager) (payload : Claims) (ttl now now' : Int)
    (kid p : String) (d : KeyData)
    (hk : m.active_kid = some kid) (hkne : kid ≠ "")
    (hd : alGet m.keys kid = some d) (hp : d.privatePem = some p)
    (hpne : p ≠ "") (hpair : pairOf p = d.publicPem)
    (haud : alGet payload "aud" = none)
    (hsub : joseClaimStrOk (alGet payload "sub") = true)
    (hjti : joseClaimStrOk (alGet payload "jti") = true)
    (hath : alGet payload "at_hash" = none)
    (h1 : now ≤ now') (h2 : now' ≤ now + ttl) :
    RotationJWT.create_token m "RS256" payload ttl now =
      .ok (.signed
        { headerKid := some kid, headerAlg := "RS256", headerTyp := "JWT",
          payload := pyDictUpdate payload (tokenTimeClaims now ttl),
          sigPriv := p },
        pyDictUpdate payload (tokenTimeClaims now ttl)) ∧
    RotationJWT.verify_token pairOf m "RS256"
        (.signed
          { headerKid := some kid, headerAlg := "RS256", headerTyp := "JWT",
            payload := pyDictUpdate payload (tokenTimeClaims now ttl),
            sigPriv := p }) now' =
      .ok (pyDictUpdate payload (tokenTimeClaims now ttl)) := by
  constructor
  · unfold RotationJWT.create_token
    rw [get_active_key_eval m kid p d hk hkne hd hp hpne]
  · unfold RotationJWT.verify_token
    simp only [KeyRotationManager.get_public_keys, alGet_map_snd, hd,
      Option.map_some', hkne, hpair]
    simp only [joseIntClaim, alGet_time_update_iat, alGet_time_update_nbf,
      alGet_time_update_exp]
    rw [if_neg (show ¬(decide (now' < now) = true) by
      simp only [decide_eq_true_eq]; omega)]
    rw [if_neg (show ¬(decide (now + ttl < now') = true) by
      simp only [decide_eq_true_eq]; omega)]
    have hchk : joseExtraClaimChecks
        (pyDictUpdate payload (tokenTimeClaims now ttl)) = none := by
      unfold joseExtraClaimChecks
      rw [alGet_time_update_frame payload now ttl "aud"
          (by decide) (by decide) (by decide),
        alGet_time_update_frame payload now ttl "sub"
          (by decide) (by decide) (by decide),
        alGet_time_update_frame payload now ttl "jti"
          (by decide) (by decide) (by decide),
        alGet_time_update_frame payload now ttl "at_hash"
          (by decide) (by decide) (by decide), haud, hath]
      simp [hsub, hjti]
    simp [hchk]

/-- Witness for `C4_issue_verify_roundtrip`. -/
theorem C4_witness :
    RotationJWT.create_token
      { keys_dir := "keys", storage_backend := "filesystem",
        env_pfx := "JWT_KEY",
        keys := [("v1", ⟨"PUB", some "PRIV", 0, "filesystem"⟩)],
        active_kid := some "v1" } "RS256" [("sub", .str "u1")] 60 1000 =
      .ok (.signed
        { headerKid := some "v1", headerAlg := "RS256", headerTyp := "JWT",
          payload := pyDictUpdate [("sub", .str "u1")] (tokenTimeClaims 1000 60),
          sigPriv := "PRIV" },
        pyDictUpdate [("sub", .str "u1")] (tokenTimeClaims 1000 60)) ∧
    RotationJWT.verify_token (fun s => if s = "PRIV" then "PUB" else "")
        { keys_dir := "keys", storage_backend := "filesystem",
          env_pfx := "JWT_KEY",
          keys := [("v1", ⟨"PUB", some "PRIV", 0, "filesystem"⟩)],
          active_kid := some "v1" } "RS256"
        (.signed
          { headerKid := some "v1", headerAlg := "RS256", headerTyp := "JWT",
            payload := pyDictUpdate [("sub", .str "u1")] (tokenTimeClaims 1000 60),
            sigPriv := "PRIV" }) 1010 =
      .ok (pyDictUpdate [("sub", .str "u1")] (tokenTimeClaims 1000 60)) :=
  C4_issue_verify_roundtrip (fun s => if s = "PRIV" then "PUB" else "")
    { keys_dir := "keys", storage_backend := "filesystem",
      env_pfx := "JWT_KEY",
      keys := [("v1", ⟨"PUB", some "PRIV", 0, "filesystem"⟩)],
      active_kid := some "v1" }
    [("sub", .str "u1")] 60 1000 1010 "v1" "PRIV"
    ⟨"PUB", some "PRIV", 0, "filesystem"⟩
    (by decide) (by decide) (by decide) (by decide) (by decide) (by decide)
    (by decide) (by decide) (by decide) (by decide)
    (by omega) (by omega)

/-- Claim C4, counterexample to the unrestricted statement: a generated
pair written as `_private.pem` / `_public.pem` installs the empty kid as
the active key (kid `""` arises from stripping `_public.pem` off the
file name), yet `create_token` then fails outright — `get_active_key`
treats the falsy empty-string `_active_kid` as "no active key" — so
`verify(issue(claims, ttl))` cannot succeed for this installed pair. -/
theorem C4_counterexample :
    (KeyRotationManager.init "keys" "filesystem" "JWT_KEY"
        ⟨[⟨"_private.pem", "P1", 1⟩, ⟨"_public.pem", "P2", 2⟩], []⟩
        (fun _ => 0)).active_kid = some "" ∧
    alGet (KeyRotationManager.init "keys" "filesystem" "JWT_KEY"
        ⟨[⟨"_private.pem", "P1", 1⟩, ⟨"_public.pem", "P2", 2⟩], []⟩
        (fun _ => 0)).keys "" =
      some ⟨"P2", some "P1", 2, "filesystem"⟩ ∧
    RotationJWT.create_token
        (KeyRotationManager.init "keys" "filesystem" "JWT_KEY"
          ⟨[⟨"_private.pem", "P1", 1⟩, ⟨"_public.pem", "P2", 2⟩], []⟩
          (fun _ => 0)) "RS256" [("sub", .str "u1")] 60 1000 =
      .error (.runtimeError "no active key") := by decide

theorem joseIntClaim_some_int (p : Claims) (name : String) (vn : Option Int)
    (h : joseIntClaim p name = some vn) :
    ∀ b, alGet p name = some (.int b) → vn = some b := by
  intro b hb
  unfold joseIntClaim at h
  rw [hb] at h
  simp only [Option.some.injEq] at h
  exact h.symm

theorem joseIntClaim_of_int (p : Claims) (name : String) (b : Int)
    (h : alGet p name = some (.int b)) :
    joseIntClaim p name = some (some b) := by
  unfold joseIntClaim
  rw [h]

theorem joseTailOk (p' claims : Claims)
    (h : (match joseExtraClaimChecks p' with
          | some e => (Except.error e : Except VerifyError Claims)
          | none => Except.ok p') = Except.ok claims) :
    claims = p' := by
  cases hchk : joseExtraClaimChecks p' with
  | some e => simp only [hchk] at h; exact absurd h (by simp)
  | none => simp only [hchk, Except.ok.injEq] at h; exact h.symm

/-- Claim C5: `verify_token`'s failure taxonomy.  Malformed input fails
with the malformed error; a token whose header carries no (or a falsy)
kid fails with the missing-kid error; a kid outside `get_public_keys()`
fails with the unknown-kid error; with kid, algorithm and signature
checks passed, `nbf > now` fails not-yet-valid and `exp < now` fails
expired (jose checks `nbf` before `exp`); and a successful verification
implies every gate passed — no failure is silently swallowed. -/
theorem C5_verify_token_taxonomy (pairOf : String → String)
    (m : KeyRotationManager) (alg : String) (tok : Token) (now : Int) :
    (∀ r, tok = .malformed r →
      RotationJWT.verify_token pairOf m alg tok now = .error .malformed) ∧
    (∀ d, tok = .signed d → (d.headerKid = none ∨ d.headerKid = some "") →
      RotationJWT.verify_token pairOf m alg tok now = .error .missingKid) ∧
    (∀ d k, tok = .signed d → d.headerKid = some k → k ≠ "" →
      alGet (KeyRotationManager.get_public_keys m) k = none →
      RotationJWT.verify_token pairOf m alg tok now = .error (.unknownKid k)) ∧
    (∀ d k pub b, tok = .signed d → d.headerKid = some k → k ≠ "" →
      alGet (KeyRotationManager.get_public_keys m) k = some pub →
      d.headerAlg = alg → pairOf d.sigPriv = pub →
      (joseIntClaim d.payload "iat").isSome →
      alGet d.payload "nbf" = some (.int b) → now < b →
      RotationJWT.verify_token pairOf m alg tok now = .error .notYetValid) ∧
    (∀ d k pub x, tok = .signed d → d.headerKid = some k → k ≠ "" →
      alGet (KeyRotationManager.get_public_keys m) k = some pub →
      d.headerAlg = alg → pairOf d.sigPriv = pub →
      (joseIntClaim d.payload "iat").isSome →
      (joseIntClaim d.payload "nbf").isSome →
      (∀ b, alGet d.payload "nbf" = some (.int b) → b ≤ now) →
      alGet d.payload "exp" = some (.int x) → x < now →
      RotationJWT.verify_token pairOf m alg tok now = .error .expired) ∧
    (∀ claims, RotationJWT.verify_token pairOf m alg tok now = .ok claims →
      ∃ d k pub, tok = .signed d ∧ claims = d.payload ∧
        d.headerKid = some k ∧ k ≠ "" ∧
        alGet (KeyRotationManager.get_public_keys m) k = some pub ∧
        d.headerAlg = alg ∧ pairOf d.sigPriv = pub ∧
        (∀ b, alGet d.payload "nbf" = some (.int b) → b ≤ now) ∧
        (∀ x, alGet d.payload "exp" = some (.int x) → now ≤ x)) := by
  refine ⟨?_, ?_, ?_, ?_, ?_, ?_⟩
  · rintro r rfl
    rfl
  · rintro d rfl hkid
    unfold RotationJWT.verify_token
    rcases hkid with h | h <;> simp [h]
  · rintro d k rfl hkid hne hget
    unfold RotationJWT.verify_token
    simp [hkid, hne, hget]
  · rintro d k pub b rfl hkid hne hget halg hsig hiat hnbf hlt
    obtain ⟨vi, hvi⟩ := Option.isSome_iff_exists.mp hiat
    have hj : joseIntClaim d.payload "nbf" = some (some b) :=
      joseIntClaim_of_int _ _ _ hnbf
    unfold RotationJWT.verify_token
    simp only [hkid]
    rw [if_neg hne]
    simp only [hget]
    rw [if_neg (by simp [halg]), if_neg (by simp [hsig])]
    simp only [hvi, hj]
    rw [if_pos (by simp [hlt])]
  · rintro d k pub x rfl hkid hne hget halg hsig hiat hnbf hnbfle hexp hlt
    obtain ⟨vi, hvi⟩ := Option.isSome_iff_exists.mp hiat
    obtain ⟨vn, hvn⟩ := Option.isSome_iff_exists.mp hnbf
    have hje : joseIntClaim d.payload "exp" = some (some x) :=
      joseIntClaim_of_int _ _ _ hexp
    cases vn with
    | none =>
      unfold RotationJWT.verify_token
      simp only [hkid]
      rw [if_neg hne]
      simp only [hget]
      rw [if_neg (by simp [halg]), if_neg (by simp [hsig])]
      simp only [hvi, hvn, hje]
      rw [if_neg (by simp)]
      rw [if_pos (by simp [hlt])]
    | some b =>
      have hb : alGet d.payload "nbf" = some (.int b) := by
        unfold joseIntClaim at hvn
        cases hg : alGet d.payload "nbf" with
        | none => rw [hg] at hvn; simp at hvn
        | some v =>
          rw [hg] at hvn
          cases v with
          | int n =>
            simp only [Option.some.injEq] at hvn
            rw [hvn]
          | str s => simp at hvn
          | boolv bb => simp at hvn
      have hble : b ≤ now := hnbfle b hb
      unfold RotationJWT.verify_token
      simp only [hkid]
      rw [if_neg hne]
      simp only [hget]
      rw [if_neg (by simp [halg]), if_neg (by simp [hsig])]
      simp only [hvi, hvn, hje]
      rw [if_neg (by simp [not_lt.mpr hble])]
      rw [if_pos (by simp [hlt])]
  · intro claims h
    cases tok with
    | malformed r => exact absurd h (by simp [RotationJWT.verify_token])
    | signed d =>
      simp only [RotationJWT.verify_token] at h
      cases hkid : d.headerKid with
      | none => simp only [hkid] at h; exact absurd h (by simp)
      | some k =>
        simp only [hkid] at h
        by_cases hne : k = ""
        · rw [if_pos hne] at h; exact absurd h (by simp)
        · rw [if_neg hne] at h
          cases hget : alGet (KeyRotationManager.get_public_keys m) k with
          | none => simp only [hget] at h; exact absurd h (by simp)
          | some pub =>
            simp only [hget] at h
            by_cases halg : d.headerAlg ≠ alg
            · rw [if_pos halg] at h; exact absurd h (by simp)
            · rw [if_neg halg] at h
              by_cases hsig : pairOf d.sigPriv ≠ pub
              · rw [if_pos hsig] at h; exact absurd h (by simp)
              · rw [if_neg hsig] at h
                cases hiat : joseIntClaim d.payload "iat" with
                | none => simp only [hiat] at h; exact absurd h (by simp)
                | some vi =>
                  simp only [hiat] at h
                  cases hnbf : joseIntClaim d.payload "nbf" with
                  | none => simp only [hnbf] at h; exact absurd h (by simp)
                  | some vn =>
                    simp only [hnbf] at h
                    have hnbfle : ∀ b, alGet d.payload "nbf" = some (.int b) →
                        b ≤ now := by
                      intro b hb
                      have := joseIntClaim_some_int _ _ _ hnbf b hb
                      subst this
                      by_contra hcon
                      push_neg at hcon
                      rw [if_pos (by simp [hcon])] at h
                      exact absurd h (by simp)
                    cases vn with
                    | none =>
                      rw [if_neg (by simp)] at h
                      cases hexp : joseIntClaim d.payload "exp" with
                      | none => simp only [hexp] at h; exact absurd h (by simp)
                      | some vx =>
                        simp only [hexp] at h
                        have hexple : ∀ y, alGet d.payload "exp" =
                            some (.int y) → now ≤ y := by
                          intro y hy
                          have := joseIntClaim_some_int _ _ _ hexp y hy
                          subst this
                          by_contra hcon
                          push_neg at hcon
                          rw [if_pos (by simp [hcon])] at h
                          exact absurd h (by simp)
                        cases vx with
                        | none =>
                          rw [if_neg (by simp)] at h
                          exact ⟨d, k, pub, rfl, joseTailOk _ _ h, hkid, hne, hget,
                            not_not.mp halg, not_not.mp hsig, hnbfle, hexple⟩
                        | some y =>
                          by_cases hy : y < now
                          · rw [if_pos (by simp [hy])] at h
                            exact absurd h (by simp)
                          · rw [if_neg (by simp [hy])] at h
                            exact ⟨d, k, pub, rfl, joseTailOk _ _ h, hkid, hne, hget,
                              not_not.mp halg, not_not.mp hsig, hnbfle, hexple⟩
                    | some b =>
                      by_cases hblt : now < b
                      · rw [if_pos (by simp [hblt])] at h
                        exact absurd h (by simp)
                      · rw [if_neg (by simp [hblt])] at h
                        cases hexp : joseIntClaim d.payload "exp" with
                        | none => simp only [hexp] at h; exact absurd h (by simp)
                        | some vx =>
                          simp only [hexp] at h
                          have hexple : ∀ y, alGet d.payload "exp" =
                              some (.int y) → now ≤ y := by
                            intro y hy
                            have := joseIntClaim_some_int _ _ _ hexp y hy
                            subst this
                            by_contra hcon
                            push_neg at hcon
                            rw [if_pos (by simp [hcon])] at h
                            exact absurd h (by simp)
                          cases vx with
                          | none =>
                            rw [if_neg (by simp)] at h
                            exact ⟨d, k, pub, rfl, joseTailOk _ _ h, hkid, hne, hget,
                              not_not.mp halg, not_not.mp hsig, hnbfle, hexple⟩
                          | some y =>
                            by_cases hy : y < now
                            · rw [if_pos (by simp [hy])] at h
                              exact absurd h (by simp)
                            · rw [if_neg (by simp [hy])] at h
                              exact ⟨d, k, pub, rfl, joseTailOk _ _ h, hkid, hne, hget,
                                not_not.mp halg, not_not.mp hsig, hnbfle, hexple⟩

/-- Witness for `C5_verify_token_taxonomy` (the unknown-kid gate at a
concrete token and key set). -/
theorem C5_witness :
    RotationJWT.verify_token (fun s => s)
      { keys_dir := "keys", storage_backend := "filesystem",
        env_pfx := "JWT_KEY",
        keys := [("v1", ⟨"PUB", some "PRIV", 0, "filesystem"⟩)],
        active_kid := some "v1" } "RS256"
      (.signed
        { headerKid := some "zz", headerAlg := "RS256", headerTyp := "JWT",
          payload := [], sigPriv := "p" }) 0 = .error (.unknownKid "zz") :=
  (C5_verify_token_taxonomy (fun s => s)
    { keys_dir := "keys", storage_backend := "filesystem",
      env_pfx := "JWT_KEY",
      keys := [("v1", ⟨"PUB", some "PRIV", 0, "filesystem"⟩)],
      active_kid := some "v1" } "RS256"
    (.signed
      { headerKid := some "zz", headerAlg := "RS256", headerTyp := "JWT",
        payload := [], sigPriv := "p" }) 0).2.2.1
    _ "zz" rfl rfl (by decide) (by decide)

/-! ## Round-trip lemmas: UTF-8 -/

theorem char_toNat_ofNat_valid (n : Nat) (h : Nat.isValidChar n) :
    (Char.ofNat n).toNat = n := by
  simp only [Char.ofNat, h, dif_pos]
  simp [Char.ofNatAux, Char.toNat, UInt32.toNat, BitVec.toNat_ofNatLt]

theorem utf8DecodeChars_encode_cons (c : Char) (l : List Nat) :
    utf8DecodeChars (utf8EncodeNat c.toNat ++ l) =
      (utf8DecodeChars l).map (fun cs => c :: cs) := by
  have hv : c.toNat < 0xd800 ∨ (0xdfff < c.toNat ∧ c.toNat < 0x110000) := c.valid
  have hofn : Char.ofNat c.toNat = c := Char.ofNat_toNat c
  have hns : ¬(0xD800 ≤ c.toNat ∧ c.toNat < 0xE000) := by
    rcases hv with h | h <;> omega
  have hub : c.toNat < 0x110000 := by rcases hv with h | h <;> omega
  by_cases h1 : c.toNat < 0x80
  · rw [show utf8EncodeNat c.toNat = [c.toNat] from by
      unfold utf8EncodeNat; rw [if_pos h1]]
    simp only [List.cons_append, List.nil_append]
    rw [utf8DecodeChars.eq_2, if_pos h1, hofn]
  · by_cases h2 : c.toNat < 0x800
    · rw [show utf8EncodeNat c.toNat =
        [0xC0 + c.toNat / 64, 0x80 + c.toNat % 64] from by
          unfold utf8EncodeNat; rw [if_neg h1, if_pos h2]]
      simp only [List.cons_append, List.nil_append]
      rw [utf8DecodeChars.eq_2, if_neg (by omega), if_neg (by omega),
        if_pos (by omega), utf8Dec2.eq_1]
      rw [if_pos (by simp only [utf8IsCont, Bool.and_eq_true, decide_eq_true_eq]; omega)]
      unfold utf8Val
      simp only [show (0xC0 + c.toNat / 64 - 0xC0) * 64 +
        (0x80 + c.toNat % 64 - 0x80) = c.toNat from by omega]
      rw [if_neg (by omega)]
      rw [if_neg (by simp only [Bool.and_eq_true, decide_eq_true_eq]; exact fun hh => hns hh)]
      rw [if_neg (by omega), hofn]
    · by_cases h3 : c.toNat < 0x10000
      · rw [show utf8EncodeNat c.toNat =
          [0xE0 + c.toNat / 4096, 0x80 + c.toNat / 64 % 64,
            0x80 + c.toNat % 64] from by
            unfold utf8EncodeNat; rw [if_neg h1, if_neg h2, if_pos h3]]
        simp only [List.cons_append, List.nil_append]
        rw [utf8DecodeChars.eq_2, if_neg (by omega), if_neg (by omega),
          if_neg (by omega), if_pos (by omega), utf8Dec3.eq_1]
        rw [if_pos (by simp only [utf8IsCont, Bool.and_eq_true, decide_eq_true_eq]; omega)]
        unfold utf8Val
        simp only [show (0xE0 + c.toNat / 4096 - 0xE0) * 4096 +
          (0x80 + c.toNat / 64 % 64 - 0x80) * 64 +
          (0x80 + c.toNat % 64 - 0x80) = c.toNat from by omega]
        rw [if_neg (by omega)]
        rw [if_neg (by simp only [Bool.and_eq_true, decide_eq_true_eq]; exact fun hh => hns hh)]
        rw [if_neg (by omega), hofn]
      · rw [show utf8EncodeNat c.toNat =
          [0xF0 + c.toNat / 262144, 0x80 + c.toNat / 4096 % 64,
            0x80 + c.toNat / 64 % 64, 0x80 + c.toNat % 64] from by
            unfold utf8EncodeNat; rw [if_neg h1, if_neg h2, if_neg h3]]
        simp only [List.cons_append, List.nil_append]
        rw [utf8DecodeChars.eq_2, if_neg (by omega), if_neg (by omega),
          if_neg (by omega), if_neg (by omega), if_pos (by omega),
          utf8Dec4.eq_1]
        rw [if_pos (by simp only [utf8IsCont, Bool.and_eq_true, decide_eq_true_eq]; omega)]
        unfold utf8Val
        simp only [show (0xF0 + c.toNat / 262144 - 0xF0) * 262144 +
          (0x80 + c.toNat / 4096 % 64 - 0x80) * 4096 +
          (0x80 + c.toNat / 64 % 64 - 0x80) * 64 +
          (0x80 + c.toNat % 64 - 0x80) = c.toNat from by omega]
        rw [if_neg (by omega)]
        rw [if_neg (by simp only [Bool.and_eq_true, decide_eq_true_eq]; exact fun hh => hns hh)]
        rw [if_neg (by omega), hofn]

theorem utf8DecodeChars_encode (cs : List Char) :
    utf8DecodeChars ((cs.map (fun c => utf8EncodeNat c.toNat)).flatten) =
      some cs := by
  induction cs with
  | nil => rfl
  | cons c rest ih =>
    simp only [List.map_cons, List.flatten_cons]
    rw [utf8DecodeChars_encode_cons, ih]
    rfl

/-- Python UTF-8 round-trip: `s.encode('utf-8').decode('utf-8') == s`. -/
theorem utf8_roundtrip (s : String) : utf8Decode (utf8Encode s) = some s := by
  unfold utf8Decode utf8Encode
  rw [utf8DecodeChars_encode]
  rfl

/-! ## Round-trip lemmas: Base64 -/

theorem b64ByteVal_ne_61 (v : Nat) (h : v < 64) : b64ByteVal v ≠ 61 := by
  revert h
  revert v
  decide

theorem b64ValByte_encode (v : Nat) (h : v < 64) :
    b64ValByte (b64ByteVal v) = some v := by
  revert h
  revert v
  decide

theorem b64ByteVal_lt_128 (v : Nat) (h : v < 64) : b64ByteVal v < 128 := by
  revert h
  revert v
  decide

theorem a2b_b64encode : ∀ (bs : List Nat), (∀ x ∈ bs, x < 256) →
    a2bBase64Go (b64EncodeBytes bs) [] 0 = some bs
  | [], _ => rfl
  | [a], h => by
    have ha : a < 256 := h a (by simp)
    have h1 : b64ByteVal (a / 4) ≠ 61 := b64ByteVal_ne_61 _ (by omega)
    have h2 : b64ByteVal (a % 4 * 16) ≠ 61 := b64ByteVal_ne_61 _ (by omega)
    have g1 : b64ValByte (b64ByteVal (a / 4)) = some (a / 4) :=
      b64ValByte_encode _ (by omega)
    have g2 : b64ValByte (b64ByteVal (a % 4 * 16)) = some (a % 4 * 16) :=
      b64ValByte_encode _ (by omega)
    rw [show b64EncodeBytes [a] =
      [b64ByteVal (a / 4), b64ByteVal (a % 4 * 16), 61, 61] from rfl]
    simp only [a2bBase64Go, if_neg h1, if_neg h2, g1, g2]
    norm_num [b64EmitFinal]
    omega
  | [a, b], h => by
    have ha : a < 256 := h a (by simp)
    have hb : b < 256 := h b (by simp)
    have h1 : b64ByteVal (a / 4) ≠ 61 := b64ByteVal_ne_61 _ (by omega)
    have h2 : b64ByteVal (a % 4 * 16 + b / 16) ≠ 61 :=
      b64ByteVal_ne_61 _ (by omega)
    have h3 : b64ByteVal (b % 16 * 4) ≠ 61 := b64ByteVal_ne_61 _ (by omega)
    have g1 : b64ValByte (b64ByteVal (a / 4)) = some (a / 4) :=
      b64ValByte_encode _ (by omega)
    have g2 : b64ValByte (b64ByteVal (a % 4 * 16 + b / 16)) =
        some (a % 4 * 16 + b / 16) := b64ValByte_encode _ (by omega)
    have g3 : b64ValByte (b64ByteVal (b % 16 * 4)) = some (b % 16 * 4) :=
      b64ValByte_encode _ (by omega)
    rw [show b64EncodeBytes [a, b] =
      [b64ByteVal (a / 4), b64ByteVal (a % 4 * 16 + b / 16),
        b64ByteVal (b % 16 * 4), 61] from rfl]
    simp only [a2bBase64Go, if_neg h1, if_neg h2, if_neg h3, g1, g2, g3]
    norm_num [b64EmitFinal]
    constructor
    · omega
    · omega
  | a :: b :: c :: rest, h => by
    have ha : a < 256 := h a (by simp)
    have hb : b < 256 := h b (by simp)
    have hc : c < 256 := h c (by simp)
    have h1 : b64ByteVal (a / 4) ≠ 61 := b64ByteVal_ne_61 _ (by omega)
    have h2 : b64ByteVal (a % 4 * 16 + b / 16) ≠ 61 :=
      b64ByteVal_ne_61 _ (by omega)
    have h3 : b64ByteVal (b % 16 * 4 + c / 64) ≠ 61 :=
      b64ByteVal_ne_61 _ (by omega)
    have h4 : b64ByteVal (c % 64) ≠ 61 := b64ByteVal_ne_61 _ (by omega)
    have g1 : b64ValByte (b64ByteVal (a / 4)) = some (a / 4) :=
      b64ValByte_encode _ (by omega)
    have g2 : b64ValByte (b64ByteVal (a % 4 * 16 + b / 16)) =
        some (a % 4 * 16 + b / 16) := b64ValByte_encode _ (by omega)
    have g3 : b64ValByte (b64ByteVal (b % 16 * 4 + c / 64)) =
        some (b % 16 * 4 + c / 64) := b64ValByte_encode _ (by omega)
    have g4 : b64ValByte (b64ByteVal (c % 64)) = some (c % 64) :=
      b64ValByte_encode _ (by omega)
    have ih := a2b_b64encode rest (fun x hx => h x (by simp [hx]))
    rw [show b64EncodeBytes (a :: b :: c :: rest) =
      b64ByteVal (a / 4) :: b64ByteVal (a % 4 * 16 + b / 16) ::
        b64ByteVal (b % 16 * 4 + c / 64) :: b64ByteVal (c % 64) ::
        b64EncodeBytes rest from rfl]
    simp only [a2bBase64Go, if_neg h1, if_neg h2, if_neg h3, if_neg h4,
      g1, g2, g3, g4]
    rw [ih]
    simp only [Option.map_some', b64Emit4, List.cons_append, List.nil_append,
      Option.some.injEq, List.cons.injEq]
    refine ⟨by omega, by omega, by omega, trivial⟩

/-- `base64.b64decode(base64.b64encode(bs))` recovers the bytes. -/
theorem pyB64_roundtrip (bs : List Nat) (h : ∀ x ∈ bs, x < 256) :
    pyB64DecodeLoose (b64EncodeBytes bs) = some bs :=
  a2b_b64encode bs h

/-! ## Round-trip lemmas: PEM encoding -/

theorem utf8EncodeNat_lt_256 (c : Nat) (h : c < 0x110000) :
    ∀ b ∈ utf8EncodeNat c, b < 256 := by
  intro b hb
  unfold utf8EncodeNat at hb
  split_ifs at hb with h1 h2 h3 <;>
    simp only [List.mem_cons, List.not_mem_nil, or_false] at hb
  · omega
  · rcases hb with rfl | rfl <;> omega
  · rcases hb with rfl | rfl | rfl <;> omega
  · rcases hb with rfl | rfl | rfl | rfl <;> omega

theorem utf8Encode_lt_256 (s : String) : ∀ b ∈ utf8Encode s, b < 256 := by
  intro b hb
  unfold utf8Encode at hb
  simp only [List.mem_flatten, List.mem_map] at hb
  obtain ⟨l, ⟨c, _, rfl⟩, hbl⟩ := hb
  have hv : c.toNat < 0xd800 ∨ (0xdfff < c.toNat ∧ c.toNat < 0x110000) := c.valid
  exact utf8EncodeNat_lt_256 _ (by rcases hv with h | h <;> omega) b hbl

theorem b64ByteVal_lt_128_all (v : Nat) : b64ByteVal v < 128 := by
  by_cases h : v < 64
  · exact b64ByteVal_lt_128 v h
  · unfold b64ByteVal
    rw [List.getD_eq_default]
    · norm_num
    · have : b64ByteList.length = 64 := by decide
      omega

theorem b64EncodeBytes_shape : ∀ (bs : List Nat),
    ∀ b ∈ b64EncodeBytes bs, (∃ v, b = b64ByteVal v) ∨ b = 61
  | [] => by simp [b64EncodeBytes]
  | [a] => by
    intro b hb
    simp only [b64EncodeBytes, List.mem_cons, List.not_mem_nil, or_false] at hb
    rcases hb with rfl | rfl | rfl | rfl
    · exact Or.inl ⟨_, rfl⟩
    · exact Or.inl ⟨_, rfl⟩
    · exact Or.inr rfl
    · exact Or.inr rfl
  | [a, b0] => by
    intro b hb
    simp only [b64EncodeBytes, List.mem_cons, List.not_mem_nil, or_false] at hb
    rcases hb with rfl | rfl | rfl | rfl
    · exact Or.inl ⟨_, rfl⟩
    · exact Or.inl ⟨_, rfl⟩
    · exact Or.inl ⟨_, rfl⟩
    · exact Or.inr rfl
  | a :: b0 :: c :: rest => by
    intro b hb
    simp only [b64EncodeBytes, List.mem_cons] at hb
    rcases hb with rfl | rfl | rfl | rfl | hmem
    · exact Or.inl ⟨_, rfl⟩
    · exact Or.inl ⟨_, rfl⟩
    · exact Or.inl ⟨_, rfl⟩
    · exact Or.inl ⟨_, rfl⟩
    · exact b64EncodeBytes_shape rest b hmem

theorem b64EncodeBytes_lt_128 (bs : List Nat) :
    ∀ b ∈ b64EncodeBytes bs, b < 128 := by
  intro b hb
  rcases b64EncodeBytes_shape bs b hb with ⟨v, rfl⟩ | rfl
  · exact b64ByteVal_lt_128_all v
  · norm_num

theorem toNat_ofNat_lt_128 (b : Nat) (h : b < 128) :
    (Char.ofNat b).toNat = b :=
  char_toNat_ofNat_valid b (Or.inl (by omega))

theorem utf8Encode_ofBytes (bs : List Nat) (h : ∀ b ∈ bs, b < 128) :
    utf8Encode (String.mk (bs.map Char.ofNat)) = bs := by
  unfold utf8Encode
  induction bs with
  | nil => rfl
  | cons b rest ih =>
    simp only [List.map_cons, List.flatten_cons] at ih ⊢
    have hb : b < 128 := h b (by simp)
    rw [toNat_ofNat_lt_128 b hb]
    rw [show utf8EncodeNat b = [b] from by unfold utf8EncodeNat; rw [if_pos (by omega)]]
    rw [ih (fun x hx => h x (by simp [hx]))]
    rfl

theorem pyIsSpace_b64Char (v : Nat) :
    pyIsSpace (Char.ofNat (b64ByteVal v)) = false := by
  by_cases h : v < 64
  · revert h; revert v; decide
  · unfold b64ByteVal
    rw [List.getD_eq_default]
    · decide
    · have : b64ByteList.length = 64 := by decide
      omega

theorem dropWhile_eq_self_of_all {α : Type} (p : α → Bool) (l : List α)
    (h : ∀ c ∈ l, p c = false) : l.dropWhile p = l := by
  cases l with
  | nil => rfl
  | cons c t =>
    rw [List.dropWhile_cons, if_neg (by rw [h c (by simp)]; simp)]

theorem pyStrip_of_no_space (s : String)
    (h : ∀ c ∈ s.data, pyIsSpace c = false) : pyStrip s = s := by
  unfold pyStrip
  rw [dropWhile_eq_self_of_all _ _ h]
  rw [dropWhile_eq_self_of_all _ _ (fun c hc => h c (List.mem_reverse.mp hc))]
  rw [List.reverse_reverse]

theorem pyStrip_encode_pem (s : String) :
    pyStrip (KeyRotationManager.encode_pem s) =
      KeyRotationManager.encode_pem s := by
  apply pyStrip_of_no_space
  intro c hc
  unfold KeyRotationManager.encode_pem at hc
  simp only [List.mem_map] at hc
  obtain ⟨b, hb, rfl⟩ := hc
  rcases b64EncodeBytes_shape _ b hb with ⟨v, rfl⟩ | rfl
  · exact pyIsSpace_b64Char v
  · decide

/-- `_decode_pem (_encode_pem pem) = pem` (stripping first changes
nothing: the Base64 text has no whitespace). -/
theorem decode_pem_encode_pem (s : String) :
    KeyRotationManager.decode_pem
      (pyStrip (KeyRotationManager.encode_pem s)) = some s := by
  rw [pyStrip_encode_pem]
  unfold KeyRotationManager.decode_pem KeyRotationManager.encode_pem
  rw [utf8Encode_ofBytes _ (b64EncodeBytes_lt_128 _)]
  unfold pyB64DecodeLoose
  rw [a2b_b64encode _ (utf8Encode_lt_256 s)]
  simpa using utf8_roundtrip s

/-! ## The variable-name regex on export-generated names -/

theorem isPrefixOf_append_self (l t : List Char) :
    List.isPrefixOf l (l ++ t) = true := by
  induction l with
  | nil => simp [List.isPrefixOf]
  | cons c cs ih => simp [List.isPrefixOf, ih]

theorem envSuffixType_append_priv (t : List Char) (ht : t ≠ []) :
    KeyRotationManager.envSuffixType (t ++ ("_PRIVATE_B64".data)) = none := by
  obtain ⟨c, t', rfl⟩ : ∃ c t', t = c :: t' := by
    cases t with
    | nil => exact absurd rfl ht
    | cons c t' => exact ⟨c, t', rfl⟩
  unfold KeyRotationManager.envSuffixType
  rw [if_neg, if_neg]
  · simp only [Bool.or_eq_true, decide_eq_true_eq]
    rintro (h | h) <;>
      · have := congrArg List.length h
        simp [List.length_append] at this
  · simp only [Bool.or_eq_true, decide_eq_true_eq]
    rintro (h | h) <;>
      · have := congrArg List.length h
        simp [List.length_append] at this

theorem envSuffixType_append_pub (t : List Char) (ht : t ≠ []) :
    KeyRotationManager.envSuffixType (t ++ ("_PUBLIC_B64".data)) = none := by
  obtain ⟨c, t', rfl⟩ : ∃ c t', t = c :: t' := by
    cases t with
    | nil => exact absurd rfl ht
    | cons c t' => exact ⟨c, t', rfl⟩
  unfold KeyRotationManager.envSuffixType
  rw [if_neg, if_neg]
  · simp only [Bool.or_eq_true, decide_eq_true_eq]
    rintro (h | h) <;>
      · have := congrArg List.length h
        simp [List.length_append] at this
  · simp only [Bool.or_eq_true, decide_eq_true_eq]
    rintro (h | h)
    · have := congrArg List.length h
      simp [List.length_append] at this
    · have hlen := congrArg List.length h
      simp [List.length_append] at hlen
      subst hlen
      simp only [List.cons_append, List.nil_append, List.cons.injEq] at h
      exact absurd h.2 (by decide)

theorem scanKidVar_append (S : List Char) (ty : String)
    (hS : KeyRotationManager.envSuffixType S = some ty)
    (hblock : ∀ t, t ≠ [] → KeyRotationManager.envSuffixType (t ++ S) = none) :
    ∀ (K acc : List Char), K ≠ [] → '\n' ∉ K →
      KeyRotationManager.scanKidVar acc (K ++ S) =
        some (String.mk (acc ++ K), ty)
  | [], _, hne, _ => absurd rfl hne
  | [c], acc, _, hnl => by
    simp only [List.cons_append, List.nil_append]
    rw [KeyRotationManager.scanKidVar.eq_2]
    rw [if_neg (fun hc => hnl (by simp [hc]))]
    simp [hS]
  | c :: c' :: K', acc, _, hnl => by
    simp only [List.cons_append]
    rw [KeyRotationManager.scanKidVar.eq_2]
    rw [if_neg (fun hc => hnl (by simp [hc]))]
    have hb : KeyRotationManager.envSuffixType ((c' :: K') ++ S) = none :=
      hblock _ (by simp)
    simp only [List.cons_append] at hb
    simp only [hb]
    have ih := scanKidVar_append S ty hS hblock (c' :: K') (acc ++ [c])
      (by simp) (fun hm => hnl (by simp at hm ⊢; tauto))
    simp only [List.cons_append] at ih
    rw [ih]
    simp

theorem matchEnvVarName_export (pfx kid suffix : String) (ty : String)
    (hS : KeyRotationManager.envSuffixType suffix.data = some ty)
    (hblock : ∀ t, t ≠ [] →
      KeyRotationManager.envSuffixType (t ++ suffix.data) = none)
    (hne : kid.data ≠ []) (hnl : '\n' ∉ kid.data) :
    KeyRotationManager.matchEnvVarName pfx (pfx ++ "_" ++ kid ++ suffix) =
      some (kid, ty) := by
  unfold KeyRotationManager.matchEnvVarName
  have hdata : (pfx ++ "_" ++ kid ++ suffix).data =
      (pfx.data ++ ['_']) ++ (kid.data ++ suffix.data) := by
    simp [String.data_append]
  rw [hdata, if_pos (isPrefixOf_append_self _ _)]
  rw [show (pfx.data ++ ['_']).length = (pfx.data ++ ['_']).length from rfl]
  rw [List.drop_left]
  rw [scanKidVar_append suffix.data ty hS hblock kid.data [] hne hnl]
  simp

/-! ## Injectivity of exported variable names -/

theorem string_ext_of_data {s t : String} (h : s.data = t.data) : s = t := by
  cases s
  cases t
  exact congrArg String.mk h

theorem exportName_cross_ne (pfx K1 K2 : String) :
    pfx ++ "_" ++ K1 ++ "_PRIVATE_B64" ≠ pfx ++ "_" ++ K2 ++ "_PUBLIC_B64" := by
  intro h
  have hd := congrArg String.data h
  simp only [String.data_append] at hd
  have hrev := congrArg List.reverse hd
  simp only [List.reverse_append, List.append_assoc] at hrev
  have htake := congrArg (List.take 11) hrev
  rw [List.take_append_of_le_length (by decide),
    List.take_append_of_le_length (by decide)] at htake
  exact absurd htake (by decide)

theorem exportName_same_inj (pfx K1 K2 S : String)
    (h : pfx ++ "_" ++ K1 ++ S = pfx ++ "_" ++ K2 ++ S) : K1 = K2 := by
  have hd := congrArg String.data h
  simp only [String.data_append, List.append_assoc] at hd
  have h2 := List.append_cancel_left hd
  have h3 := List.append_cancel_left h2
  exact string_ext_of_data (List.append_cancel_right h3)

/-! ## Shape of the exported environment -/

/-- The kid as it comes back from an export/import cycle: uppercased,
`-` to `_`, then lowercased by the reader. -/
def envKidNormalize (k : String) : String :=
  pyLower (pyDashToUnderscore (pyUpper k))

/-- Kids the environment round-trip can represent verbatim: non-empty,
no newline in the exported (uppercased) form, and fixed by the
normalization. -/
def kidExportable (k : String) : Prop :=
  k ≠ "" ∧ '\n' ∉ (pyDashToUnderscore (pyUpper k)).data ∧ envKidNormalize k = k

instance (k : String) : Decidable (kidExportable k) := by
  unfold kidExportable
  infer_instance

/-- The two environment entries `export_to_env` emits for one record. -/
def exportBlock (pfx : String) (kd : String × KeyData) : List (String × String) :=
  (match kd.2.privatePem with
    | some p =>
      if p ≠ "" then
        [(pfx ++ "_" ++ pyDashToUnderscore (pyUpper kd.1) ++ "_PRIVATE_B64",
          KeyRotationManager.encode_pem p)]
      else []
    | none => []) ++
  [(pfx ++ "_" ++ pyDashToUnderscore (pyUpper kd.1) ++ "_PUBLIC_B64",
    KeyRotationManager.encode_pem kd.2.publicPem)]

theorem alGet_eq_none_iff {α : Type} (d : List (String × α)) (k : String) :
    alGet d k = none ↔ ∀ nv ∈ d, nv.1 ≠ k := by
  induction d with
  | nil => simp [alGet]
  | cons hd tl ih =>
    by_cases he : hd.1 = k
    · simp [alGet, he]
    · simp [alGet, he, ih]

theorem alSet_fresh {α : Type} (d : List (String × α)) (k : String) (v : α)
    (h : alGet d k = none) : alSet d k v = d ++ [(k, v)] := by
  induction d with
  | nil => rfl
  | cons hd tl ih =>
    simp only [alGet] at h
    by_cases he : hd.1 = k
    · rw [if_pos he] at h
      exact absurd h (by simp)
    · rw [if_neg he] at h
      simp [alSet, he, ih h]

theorem exportBlock_name_mem (pfx : String) (p : String × KeyData)
    (b : String × String) (hb : b ∈ exportBlock pfx p) :
    b.1 = pfx ++ "_" ++ pyDashToUnderscore (pyUpper p.1) ++ "_PRIVATE_B64" ∨
    b.1 = pfx ++ "_" ++ pyDashToUnderscore (pyUpper p.1) ++ "_PUBLIC_B64" := by
  unfold exportBlock at hb
  rcases List.mem_append.mp hb with h | h
  · left
    cases hp : p.2.privatePem with
    | none => simp only [hp] at h; simp at h
    | some q =>
      simp only [hp] at h
      by_cases hq : q ≠ ""
      · rw [if_pos hq] at h
        simp at h
        rw [h]
      · rw [if_neg hq] at h
        simp at h
  · right
    simp at h
    rw [h]

theorem exportBlock_names_ne (pfx : String) (p q : String × KeyData)
    (hpq : p.1 ≠ q.1) (hp : kidExportable p.1) (hq : kidExportable q.1)
    (b : String × String) (hb : b ∈ exportBlock pfx p)
    (b' : String × String) (hb' : b' ∈ exportBlock pfx q) : b.1 ≠ b'.1 := by
  have hK : pyDashToUnderscore (pyUpper p.1) ≠ pyDashToUnderscore (pyUpper q.1) := by
    intro he
    have : envKidNormalize p.1 = envKidNormalize q.1 := by
      unfold envKidNormalize
      rw [he]
    rw [hp.2.2, hq.2.2] at this
    exact hpq this
  rcases exportBlock_name_mem pfx p b hb with h1 | h1 <;>
    rcases exportBlock_name_mem pfx q b' hb' with h2 | h2 <;> rw [h1, h2]
  · exact fun he => hK (exportName_same_inj _ _ _ _ he)
  · exact exportName_cross_ne _ _ _
  · exact fun he => (exportName_cross_ne _ _ _ he.symm)
  · exact fun he => hK (exportName_same_inj _ _ _ _ he)

theorem exportBlock_internal_ne (pfx : String) (p : String × KeyData)
    (b : String × String)
    (hb : b ∈ (match p.2.privatePem with
      | some q =>
        if q ≠ "" then
          [(pfx ++ "_" ++ pyDashToUnderscore (pyUpper p.1) ++ "_PRIVATE_B64",
            KeyRotationManager.encode_pem q)]
        else []
      | none => ([] : List (String × String)))) :
    b.1 ≠ pfx ++ "_" ++ pyDashToUnderscore (pyUpper p.1) ++ "_PUBLIC_B64" := by
  cases hp : p.2.privatePem with
  | none => simp only [hp] at hb; simp at hb
  | some q =>
    simp only [hp] at hb
    by_cases hq : q ≠ ""
    · rw [if_pos hq] at hb
      simp at hb
      rw [hb]
      exact exportName_cross_ne _ _ _
    · rw [if_neg hq] at hb
      simp at hb

theorem exportStep_eq (pfx : String) (tbl : List (String × KeyData))
    (res : List (String × String)) (k : String) (d : KeyData)
    (hlook : alGet tbl k = some d)
    (hfresh : ∀ b ∈ exportBlock pfx (k, d), alGet res b.1 = none) :
    KeyRotationManager.exportStep pfx tbl res k = res ++ exportBlock pfx (k, d) := by
  unfold KeyRotationManager.exportStep
  simp only [hlook]
  cases hpp : d.privatePem with
  | none =>
    dsimp only
    rw [alSet_fresh res
      (pfx ++ "_" ++ pyDashToUnderscore (pyUpper k) ++ "_PUBLIC_B64")
      (KeyRotationManager.encode_pem d.publicPem)
      (hfresh (pfx ++ "_" ++ pyDashToUnderscore (pyUpper k) ++ "_PUBLIC_B64",
        KeyRotationManager.encode_pem d.publicPem) (by simp [exportBlock, hpp]))]
    simp [exportBlock, hpp]
  | some q =>
    dsimp only
    by_cases hq : q ≠ ""
    · rw [if_pos hq]
      rw [alSet_fresh res
        (pfx ++ "_" ++ pyDashToUnderscore (pyUpper k) ++ "_PRIVATE_B64")
        (KeyRotationManager.encode_pem q)
        (hfresh (pfx ++ "_" ++ pyDashToUnderscore (pyUpper k) ++ "_PRIVATE_B64",
          KeyRotationManager.encode_pem q) (by simp [exportBlock, hpp, hq]))]
      rw [alSet_fresh
        (res ++ [(pfx ++ "_" ++ pyDashToUnderscore (pyUpper k) ++ "_PRIVATE_B64",
          KeyRotationManager.encode_pem q)])
        (pfx ++ "_" ++ pyDashToUnderscore (pyUpper k) ++ "_PUBLIC_B64")
        (KeyRotationManager.encode_pem d.publicPem)]
      · simp [exportBlock, hpp, hq]
      · rw [alGet_eq_none_iff]
        intro nv hnv
        rcases List.mem_append.mp hnv with h | h
        · have := hfresh (pfx ++ "_" ++ pyDashToUnderscore (pyUpper k) ++ "_PUBLIC_B64",
            KeyRotationManager.encode_pem d.publicPem) (by simp [exportBlock, hpp])
          rw [alGet_eq_none_iff] at this
          exact this nv h
        · simp only [List.mem_singleton] at h
          rw [h]
          exact exportName_cross_ne _ _ _
    · rw [if_neg hq]
      rw [alSet_fresh res
        (pfx ++ "_" ++ pyDashToUnderscore (pyUpper k) ++ "_PUBLIC_B64")
        (KeyRotationManager.encode_pem d.publicPem)
        (hfresh (pfx ++ "_" ++ pyDashToUnderscore (pyUpper k) ++ "_PUBLIC_B64",
          KeyRotationManager.encode_pem d.publicPem) (by simp [exportBlock, hpp, hq]))]
      simp only [exportBlock, hpp]
      simp [hq]

theorem alGet_of_mem_nodup {α : Type} (l : List (String × α))
    (hnd : (l.map Prod.fst).Nodup) (p : String × α) (hp : p ∈ l) :
    alGet l p.1 = some p.2 := by
  induction l with
  | nil => simp at hp
  | cons hd tl ih =>
    simp only [List.map_cons, List.nodup_cons] at hnd
    rcases List.mem_cons.mp hp with rfl | hmem
    · simp [alGet]
    · by_cases he : hd.1 = p.1
      · exact absurd (he ▸ List.mem_map_of_mem Prod.fst hmem) hnd.1
      · simp only [alGet, he, if_false]
        exact ih hnd.2 hmem

theorem export_foldl_blocks (pfx : String) (tbl : List (String × KeyData)) :
    ∀ (keys : List (String × KeyData)) (res : List (String × String)),
      (∀ p ∈ keys, alGet tbl p.1 = some p.2) →
      (∀ p ∈ keys, kidExportable p.1) →
      ((keys.map Prod.fst).Nodup) →
      (∀ nv ∈ res, ∀ p ∈ keys, ∀ b ∈ exportBlock pfx p, nv.1 ≠ b.1) →
      List.foldl (KeyRotationManager.exportStep pfx tbl) res
          (keys.map Prod.fst) =
        res ++ (keys.map (exportBlock pfx)).flatten
  | [], res, _, _, _, _ => by simp
  | p :: rest, res, htbl, hexp, hnd, hfresh => by
    obtain ⟨k, d⟩ := p
    simp only [List.map_cons, List.foldl_cons, List.flatten_cons]
    rw [exportStep_eq pfx tbl res k d (htbl (k, d) (by simp))
      (fun b hb => (alGet_eq_none_iff res b.1).mpr
        (fun nv hnv => hfresh nv hnv (k, d) (by simp) b hb))]
    have hnd' : ((k :: rest.map Prod.fst)).Nodup := by simpa using hnd
    rw [export_foldl_blocks pfx tbl rest (res ++ exportBlock pfx (k, d))
      (fun q hq => htbl q (by simp [hq]))
      (fun q hq => hexp q (by simp [hq]))
      ((List.nodup_cons.mp hnd').2)
      (fun nv hnv q hq b' hb' => by
        rcases List.mem_append.mp hnv with h | h
        · exact hfresh nv h q (by simp [hq]) b' hb'
        · have hne : (k, d).1 ≠ q.1 := by
            intro he
            have he2 : k = q.1 := he
            exact (List.nodup_cons.mp hnd').1
              (by rw [he2]; exact List.mem_map_of_mem Prod.fst hq)
          exact exportBlock_names_ne pfx (k, d) q hne (hexp (k, d) (by simp))
            (hexp q (by simp [hq])) nv h b' hb')]
    simp

/-- With exportable, pairwise-distinct kids, `export_to_env` emits
exactly the per-record blocks, in record order. -/
theorem export_to_env_shape (m : KeyRotationManager)
    (hexp : ∀ p ∈ m.keys, kidExportable p.1)
    (hnd : (m.keys.map Prod.fst).Nodup) :
    KeyRotationManager.export_to_env m none =
      (m.keys.map (exportBlock m.env_pfx)).flatten := by
  unfold KeyRotationManager.export_to_env
  dsimp only
  rw [export_foldl_blocks m.env_pfx m.keys m.keys []
    (fun p hp => alGet_of_mem_nodup m.keys hnd p hp) hexp hnd (by simp)]
  simp

/-! ## Reading the exported environment back -/

theorem alGet_append {α : Type} (a b : List (String × α)) (k : String) :
    alGet (a ++ b) k =
      (match alGet a k with
      | some v => some v
      | none => alGet b k) := by
  induction a with
  | nil => simp [alGet]
  | cons hd tl ih =>
    by_cases he : hd.1 = k
    · simp [alGet, he]
    · simp [alGet, he, ih]

theorem alSet_append_last {α : Type} (acc : List (String × α)) (k : String)
    (v v' : α) (h : alGet acc k = none) :
    alSet (acc ++ [(k, v)]) k v' = acc ++ [(k, v')] := by
  induction acc with
  | nil => simp [alSet]
  | cons hd tl ih =>
    simp only [alGet] at h
    by_cases he : hd.1 = k
    · rw [if_pos he] at h
      exact absurd h (by simp)
    · rw [if_neg he] at h
      simp [alSet, he, ih h]

theorem listHasInfix_append_left (s t pat : List Char)
    (h : listHasInfix t pat = true) : listHasInfix (s ++ t) pat = true := by
  induction s with
  | nil => simpa using h
  | cons c cs ih =>
    unfold listHasInfix
    rw [Bool.or_eq_true]
    right
    exact ih

theorem pyStartsWith_export_name (pfx K suffix : String) :
    pyStartsWith (pfx ++ "_" ++ K ++ suffix) pfx = true := by
  unfold pyStartsWith
  have hdata : (pfx ++ "_" ++ K ++ suffix).data =
      pfx.data ++ (("_" ++ K ++ suffix).data) := by
    simp [String.data_append]
  rw [hdata]
  exact isPrefixOf_append_self _ _

theorem pyContains_export_name (pfx K suffix : String)
    (hsfx : listHasInfix suffix.data ("_B64".data) = true) :
    pyContains (pfx ++ "_" ++ K ++ suffix) "_B64" = true := by
  unfold pyContains
  have hdata : (pfx ++ "_" ++ K ++ suffix).data =
      (pfx.data ++ "_".data ++ K.data) ++ suffix.data := by
    simp [String.data_append]
  rw [hdata]
  exact listHasInfix_append_left _ _ _ hsfx

/-- The `kids_data` inner dict produced for one record by reading its
exported block back. -/
def groupOf (d : KeyData) : List (String × String) :=
  (match d.privatePem with
    | some p => if p ≠ "" then [("private", p)] else []
    | none => []) ++
  [("public", d.publicPem)]

theorem groupOf_public (d : KeyData) :
    alGet (groupOf d) "public" = some d.publicPem := by
  unfold groupOf
  cases hp : d.privatePem with
  | none => simp [alGet]
  | some p =>
    by_cases hq : p ≠ ""
    · simp [hq, alGet]
    · simp [hq, alGet]

theorem groupOf_private (d : KeyData) :
    alGet (groupOf d) "private" =
      (if pyTruthy d.privatePem then d.privatePem else none) := by
  unfold groupOf
  cases hp : d.privatePem with
  | none => simp [alGet, pyTruthy]
  | some p =>
    by_cases hq : p ≠ ""
    · simp [hq, alGet, pyTruthy]
    · simp only [ne_eq, Decidable.not_not] at hq
      simp [hq, alGet, pyTruthy]

theorem string_ne_empty_data {k : String} (h : k ≠ "") : k.data ≠ [] :=
  fun hd => h (string_ext_of_data (by rw [hd] ))

theorem envGroupStep_on_export (pfx k : String) (hk : kidExportable k)
    (acc : List (String × List (String × String))) (pem : String)
    (suffix ty : String)
    (hS : KeyRotationManager.envSuffixType suffix.data = some ty)
    (hblock : ∀ t, t ≠ [] →
      KeyRotationManager.envSuffixType (t ++ suffix.data) = none)
    (hsfx : listHasInfix suffix.data ("_B64".data) = true) :
    KeyRotationManager.envGroupStep pfx acc
      (pfx ++ "_" ++ pyDashToUnderscore (pyUpper k) ++ suffix,
        KeyRotationManager.encode_pem pem) =
      alSet acc k (alSet ((alGet acc k).getD []) ty pem) := by
  have hKne : (pyDashToUnderscore (pyUpper k)).data ≠ [] := by
    intro hnil
    apply string_ne_empty_data hk.1
    simp only [pyDashToUnderscore, pyUpper] at hnil
    simpa using hnil
  unfold KeyRotationManager.envGroupStep
  dsimp only
  rw [if_pos (pyStartsWith_export_name pfx _ suffix)]
  rw [matchEnvVarName_export pfx (pyDashToUnderscore (pyUpper k)) suffix ty
    hS hblock hKne hk.2.1]
  dsimp only
  rw [show pyLower (pyDashToUnderscore (pyUpper k)) = k from hk.2.2]
  unfold KeyRotationManager.envDecodedValue
  rw [pyContains_export_name pfx _ suffix hsfx]
  rw [decode_pem_encode_pem]
  simp

theorem group_fold_block (pfx k : String) (d : KeyData) (hk : kidExportable k)
    (acc : List (String × List (String × String)))
    (hacc : alGet acc k = none) :
    List.foldl (KeyRotationManager.envGroupStep pfx) acc
        (exportBlock pfx (k, d)) =
      acc ++ [(k, groupOf d)] := by
  unfold exportBlock
  cases hp : d.privatePem with
  | none =>
    dsimp only
    rw [List.nil_append, List.foldl_cons, List.foldl_nil]
    rw [envGroupStep_on_export pfx k hk acc d.publicPem "_PUBLIC_B64" "public"
      (by decide) envSuffixType_append_pub (by decide)]
    rw [hacc]
    rw [alSet_fresh acc k _ hacc]
    simp [groupOf, hp, alSet]
  | some p =>
    dsimp only
    by_cases hq : p ≠ ""
    · rw [if_pos hq]
      rw [List.cons_append, List.nil_append, List.foldl_cons, List.foldl_cons,
        List.foldl_nil]
      rw [envGroupStep_on_export pfx k hk acc p "_PRIVATE_B64" "private"
        (by decide) envSuffixType_append_priv (by decide)]
      rw [hacc]
      rw [alSet_fresh acc k _ hacc]
      rw [envGroupStep_on_export pfx k hk _ d.publicPem "_PUBLIC_B64" "public"
        (by decide) envSuffixType_append_pub (by decide)]
      rw [alGet_append]
      rw [hacc]
      dsimp only
      rw [show alGet [(k, alSet (Option.getD none []) "private" p)] k =
        some (alSet (Option.getD none []) "private" p) from by simp [alGet]]
      rw [alSet_append_last acc k _ _ hacc]
      simp [groupOf, hp, hq, alSet]
    · rw [if_neg hq]
      rw [List.nil_append, List.foldl_cons, List.foldl_nil]
      rw [envGroupStep_on_export pfx k hk acc d.publicPem "_PUBLIC_B64" "public"
        (by decide) envSuffixType_append_pub (by decide)]
      rw [hacc]
      rw [alSet_fresh acc k _ hacc]
      simp only [ne_eq, Decidable.not_not] at hq
      simp [groupOf, hp, hq, alSet]

theorem group_fold_blocks (pfx : String) :
    ∀ (keys : List (String × KeyData))
      (acc : List (String × List (String × String))),
      (∀ p ∈ keys, kidExportable p.1) →
      ((keys.map Prod.fst).Nodup) →
      (∀ p ∈ keys, alGet acc p.1 = none) →
      List.foldl (KeyRotationManager.envGroupStep pfx) acc
          ((keys.map (exportBlock pfx)).flatten) =
        acc ++ keys.map (fun p => (p.1, groupOf p.2))
  | [], acc, _, _, _ => by simp
  | p :: rest, acc, hexp, hnd, hacc => by
    obtain ⟨k, d⟩ := p
    simp only [List.map_cons, List.flatten_cons, List.foldl_append]
    rw [group_fold_block pfx k d (hexp (k, d) (by simp)) acc
      (hacc (k, d) (by simp))]
    have hnd' : (k :: rest.map Prod.fst).Nodup := by simpa using hnd
    rw [group_fold_blocks pfx rest (acc ++ [(k, groupOf d)])
      (fun q hq => hexp q (by simp [hq]))
      ((List.nodup_cons.mp hnd').2)
      (fun q hq => by
        rw [alGet_append, hacc q (by simp [hq])]
        dsimp only
        have hne : k ≠ q.1 := by
          intro he
          exact (List.nodup_cons.mp hnd').1
            (by rw [he]; exact List.mem_map_of_mem Prod.fst hq)
        simp [alGet, hne])]
    simp

/-- The records an environment reload of an exported key set produces:
same kids in order, same public PEMs, private PEMs kept exactly when
truthy, `created_at` stamped by the reader's clock, source
`environment`. -/
def envRecordsOf (utc : Nat → Int) : Nat → List (String × KeyData) →
    List (String × KeyData)
  | _, [] => []
  | i, p :: rest =>
    (p.1, ⟨p.2.publicPem,
      if pyTruthy p.2.privatePem then p.2.privatePem else none,
      utc i, "environment"⟩) :: envRecordsOf utc (i + 1) rest

theorem records_fold (utc : Nat → Int) :
    ∀ (keys ks : List (String × KeyData)),
      List.foldl
        (fun ks (g : String × List (String × String)) =>
          match alGet g.2 "public" with
          | none => ks
          | some pub =>
            ks ++ [(g.1, ⟨pub, alGet g.2 "private", utc ks.length,
              "environment"⟩)])
        ks (keys.map (fun p => (p.1, groupOf p.2))) =
      ks ++ envRecordsOf utc ks.length keys
  | [], ks => by simp [envRecordsOf]
  | p :: rest, ks => by
    simp only [List.map_cons, List.foldl_cons]
    rw [show (match alGet (groupOf p.2) "public" with
      | none => ks
      | some pub =>
        ks ++ [(p.1, (⟨pub, alGet (groupOf p.2) "private", utc ks.length,
          "environment"⟩ : KeyData))]) =
      ks ++ [(p.1, ⟨p.2.publicPem,
        if pyTruthy p.2.privatePem then p.2.privatePem else none,
        utc ks.length, "environment"⟩)] from by
        rw [groupOf_public, groupOf_private]]
    rw [records_fold utc rest (ks ++ [(p.1, _)])]
    simp only [List.length_append, List.length_singleton]
    simp [envRecordsOf]

theorem load_env_of_export (m : KeyRotationManager) (utc : Nat → Int)
    (hexp : ∀ p ∈ m.keys, kidExportable p.1)
    (hnd : (m.keys.map Prod.fst).Nodup) :
    KeyRotationManager.load_keys_from_env m.env_pfx
        (KeyRotationManager.export_to_env m none) utc =
      envRecordsOf utc 0 m.keys := by
  rw [export_to_env_shape m hexp hnd]
  unfold KeyRotationManager.load_keys_from_env
  dsimp only
  rw [group_fold_blocks m.env_pfx m.keys [] hexp hnd (by simp [alGet])]
  simp only [List.nil_append]
  rw [records_fold utc m.keys []]
  simp

theorem envRecordsOf_map_fst (utc : Nat → Int) :
    ∀ (i : Nat) (keys : List (String × KeyData)),
      (envRecordsOf utc i keys).map Prod.fst = keys.map Prod.fst
  | _, [] => rfl
  | i, p :: rest => by
    simp only [envRecordsOf, List.map_cons]
    rw [envRecordsOf_map_fst utc (i + 1) rest]

theorem envRecordsOf_alGet (utc : Nat → Int) :
    ∀ (keys : List (String × KeyData)) (i : Nat) (p : String × KeyData),
      ((keys.map Prod.fst).Nodup) → p ∈ keys →
      ∃ j, alGet (envRecordsOf utc i keys) p.1 =
        some ⟨p.2.publicPem,
          if pyTruthy p.2.privatePem then p.2.privatePem else none,
          utc j, "environment"⟩
  | [], _, p, _, hp => absurd hp (by simp)
  | hd :: rest, i, p, hnd, hp => by
    have hnd' : (hd.1 :: rest.map Prod.fst).Nodup := by simpa using hnd
    rcases List.mem_cons.mp hp with rfl | hmem
    · exact ⟨i, by simp [envRecordsOf, alGet]⟩
    · have hne : hd.1 ≠ p.1 := by
        intro he
        exact (List.nodup_cons.mp hnd').1
          (by rw [he]; exact List.mem_map_of_mem Prod.fst hmem)
      obtain ⟨j, hj⟩ := envRecordsOf_alGet utc rest (i + 1) p
        ((List.nodup_cons.mp hnd').2) hmem
      exact ⟨j, by simp only [envRecordsOf, alGet, hne, if_false]; exact hj⟩

/-- Claim C3 (amended): exporting a key set to environment format and
loading an environment-backed manager from those variables reproduces
the key set up to the write-side kid normalization (uppercase,
`-` to `_`, then lowercased on read).  For key sets whose kids are
exportable — non-empty, newline-free and already fixed by that
normalization — and pairwise distinct, the reload yields exactly the
original kids in order, the same public PEMs, and a private PEM exactly
for the records whose private material was exported (truthy private
PEMs); `created_at` becomes the reader's load time and `source` becomes
`environment`. -/
theorem C3_export_roundtrip (m : KeyRotationManager) (utc : Nat → Int)
    (hexp : ∀ p ∈ m.keys, kidExportable p.1)
    (hnd : (m.keys.map Prod.fst).Nodup) :
    KeyRotationManager.load_keys_from_env m.env_pfx
        (KeyRotationManager.export_to_env m none) utc =
      envRecordsOf utc 0 m.keys ∧
    (KeyRotationManager.load_keys_from_env m.env_pfx
        (KeyRotationManager.export_to_env m none) utc).map Prod.fst =
      m.keys.map Prod.fst ∧
    ∀ p ∈ m.keys, ∃ d',
      alGet (KeyRotationManager.load_keys_from_env m.env_pfx
        (KeyRotationManager.export_to_env m none) utc) p.1 = some d' ∧
      d'.publicPem = p.2.publicPem ∧
      d'.privatePem =
        (if pyTruthy p.2.privatePem then p.2.privatePem else none) := by
  have hmain := load_env_of_export m utc hexp hnd
  refine ⟨hmain, ?_, ?_⟩
  · rw [hmain]
    exact envRecordsOf_map_fst utc 0 m.keys
  · intro p hp
    obtain ⟨j, hj⟩ := envRecordsOf_alGet utc m.keys 0 p hnd hp
    exact ⟨⟨p.2.publicPem,
        if pyTruthy p.2.privatePem then p.2.privatePem else none,
        utc j, "environment"⟩,
      by rw [hmain]; exact hj, rfl, rfl⟩

/-- Witness for `C3_export_roundtrip`. -/
theorem C3_witness :
    KeyRotationManager.load_keys_from_env "JWT_KEY"
        (KeyRotationManager.export_to_env
          { keys_dir := "keys", storage_backend := "environment",
            env_pfx := "JWT_KEY",
            keys := [("v1", ⟨"PUB", some "PRIV", 0, "environment"⟩)],
            active_kid := some "v1" } none)
        (fun _ => 7) =
      envRecordsOf (fun _ => 7) 0
        [("v1", ⟨"PUB", some "PRIV", 0, "environment"⟩)] :=
  (C3_export_roundtrip
    { keys_dir := "keys", storage_backend := "environment",
      env_pfx := "JWT_KEY",
      keys := [("v1", ⟨"PUB", some "PRIV", 0, "environment"⟩)],
      active_kid := some "v1" }
    (fun _ => 7) (by decide) (by decide)).1

/-- Claim C3, counterexample to the stated round-trip: a key set whose
single kid is `V1` exports to `JWT_KEY_V1_PUBLIC_B64`, and reloading
yields the kid `v1` — the round-trip does not reproduce the same kids
(case is lost; likewise `-` becomes `_`). -/
theorem C3_counterexample :
    (KeyRotationManager.load_keys_from_env "JWT_KEY"
        (KeyRotationManager.export_to_env
          { keys_dir := "keys", storage_backend := "environment",
            env_pfx := "JWT_KEY",
            keys := [("V1", ⟨"PUB", none, 0, "environment"⟩)],
            active_kid := none } none)
        (fun _ => 0)).map Prod.fst = ["v1"] ∧ ("v1" : String) ≠ "V1" := by
  decide

theorem matchEnv_startsWith (pfx name : String) (x : String × String)
    (h : KeyRotationManager.matchEnvVarName pfx name = some x) :
    pyStartsWith name pfx = true := by
  unfold KeyRotationManager.matchEnvVarName at h
  by_cases hp : List.isPrefixOf (pfx.data ++ ['_']) name.data
  · have hpre : pfx.data <+: name.data :=
      (List.prefix_append pfx.data ['_']).trans
        (List.isPrefixOf_iff_prefix.mp hp)
    exact List.isPrefixOf_iff_prefix.mpr hpre
  · simp only [hp, if_false] at h
    simp at h

/-- Claim C7 (amended): in environment mode a variable whose name
matches `PREFIX_(kid)_(PRIVATE|PUBLIC)(_B64)?` is Base64-decoded (after
stripping the value) exactly when `_B64` occurs anywhere in the
variable name as a substring — not only as a suffix — or when the
heuristic `_is_base64` holds (length at least 10 and valid Base64 after
whitespace removal); when the flag holds but decoding fails the raw
value is kept as a fallback, and when the flag is false the raw value
is kept.  A matching variable of type `public` alone yields a record
with no private PEM; a `private` variable alone yields no record; a
`public`/`private` pair under one kid yields one record carrying
both. -/
theorem C7_env_var_decode (pfx name value : String) (utc : Nat → Int) :
    (∀ s, (pyContains name "_B64" || KeyRotationManager.is_base64 value) = true →
        KeyRotationManager.decode_pem (pyStrip value) = some s →
        KeyRotationManager.envDecodedValue name value = s) ∧
    ((pyContains name "_B64" || KeyRotationManager.is_base64 value) = true →
        KeyRotationManager.decode_pem (pyStrip value) = none →
        KeyRotationManager.envDecodedValue name value = value) ∧
    ((pyContains name "_B64" || KeyRotationManager.is_base64 value) = false →
        KeyRotationManager.envDecodedValue name value = value) ∧
    (KeyRotationManager.load_keys_from_env pfx [(name, value)] utc =
      match KeyRotationManager.matchEnvVarName pfx name with
      | some (kidRaw, ty) =>
        if ty = "public" then
          [(pyLower kidRaw,
            ⟨KeyRotationManager.envDecodedValue name value, none, utc 0,
             "environment"⟩)]
        else []
      | none => []) ∧
    (∀ name2 value2 kidRaw,
      KeyRotationManager.matchEnvVarName pfx name = some (kidRaw, "public") →
      KeyRotationManager.matchEnvVarName pfx name2 = some (kidRaw, "private") →
      KeyRotationManager.load_keys_from_env pfx [(name, value), (name2, value2)]
          utc =
        [(pyLower kidRaw,
          ⟨KeyRotationManager.envDecodedValue name value,
           some (KeyRotationManager.envDecodedValue name2 value2),
           utc 0, "environment"⟩)]) := by
  refine ⟨?_, ?_, ?_, ?_, ?_⟩
  · intro s hb hd
    simp only [KeyRotationManager.envDecodedValue, hb, if_true, hd]
  · intro hb hd
    simp only [KeyRotationManager.envDecodedValue, hb, if_true, hd]
  · intro hb
    simp [KeyRotationManager.envDecodedValue, hb]
  · cases hm : KeyRotationManager.matchEnvVarName pfx name with
    | none =>
      simp only [KeyRotationManager.load_keys_from_env, List.foldl,
        KeyRotationManager.envGroupStep, hm]
      split <;> rfl
    | some p =>
      obtain ⟨kidRaw, ty⟩ := p
      have hs := matchEnv_startsWith pfx name (kidRaw, ty) hm
      simp only [KeyRotationManager.load_keys_from_env, List.foldl,
        KeyRotationManager.envGroupStep, hm, hs, if_true, alGet, alSet,
        Option.getD]
      by_cases hty : ty = "public"
      · simp [hty, alGet]
      · simp [hty, alGet, Ne.symm hty]
  · intro name2 value2 kidRaw hm1 hm2
    have hs1 := matchEnv_startsWith pfx name (kidRaw, "public") hm1
    have hs2 := matchEnv_startsWith pfx name2 (kidRaw, "private") hm2
    simp only [KeyRotationManager.load_keys_from_env, List.foldl,
      KeyRotationManager.envGroupStep, hm1, hm2, hs1, hs2, if_true, alGet,
      alSet, Option.getD]
    simp [alGet, alSet]

/-- Witness for `C7_env_var_decode`. -/
theorem C7_witness :
    KeyRotationManager.envDecodedValue "JWT_KEY_V1_PUBLIC_B64" "UFVC" =
      "PUB" ∧
    KeyRotationManager.load_keys_from_env "JWT_KEY"
        [("JWT_KEY_V1_PUBLIC_B64", "UFVC")] (fun _ => 0) =
      [("v1", ⟨"PUB", none, 0, "environment"⟩)] ∧
    KeyRotationManager.load_keys_from_env "JWT_KEY"
        [("JWT_KEY_V1_PUBLIC_B64", "UFVC"), ("JWT_KEY_V1_PRIVATE_B64", "UFJJVg==")]
        (fun _ => 0) =
      [("v1", ⟨"PUB", some "PRIV", 0, "environment"⟩)] := by
  have h := C7_env_var_decode "JWT_KEY" "JWT_KEY_V1_PUBLIC_B64" "UFVC"
    (fun _ => 0)
  refine ⟨h.1 "PUB" (by decide) (by decide), h.2.2.2.1.trans (by decide), ?_⟩
  exact (h.2.2.2.2 "JWT_KEY_V1_PRIVATE_B64" "UFJJVg==" "V1" (by decide)
    (by decide)).trans (by decide)

/-- Claim C7, counterexample to the stated decode condition: the
variable `JWT_KEY_X_B64Y_PUBLIC` does not end in `_B64` and its value
`QUJD` fails the length-10 heuristic, yet the value is Base64-decoded
to `ABC` because `_B64` occurs inside the kid — the code tests `_B64`
as a substring of the whole name, not as a suffix. -/
theorem C7_counterexample :
    KeyRotationManager.load_keys_from_env "JWT_KEY"
        [("JWT_KEY_X_B64Y_PUBLIC", "QUJD")] (fun _ => 0) =
      [("x_b64y", ⟨"ABC", none, 0, "environment"⟩)] ∧
    pyEndsWith "JWT_KEY_X_B64Y_PUBLIC" "_B64" = false ∧
    KeyRotationManager.is_base64 "QUJD" = false := by
  decide
